import Mathlib

/-!
Shallow embedding of the redis-sqlite storage engine.

Two engine variants are embedded from the source:
* `RedisSQLite` models `src/redis-sqlite.ts` (the `sqlite`/`sqlite3` backed
  class), including its SQL-transaction bookkeeping (the `inTransaction` and
  `transactionMode` flags, `BEGIN`/`COMMIT`/`ROLLBACK` behaviour of a single
  SQLite connection) and the MULTI/EXEC buffer.
* `TP` models the string/hash operations of `src/redis-sqlite-typepersist.ts`
  (the `typepersist` backed class), whose queries compile to SQL with
  three-valued NULL comparison semantics.

Time is passed explicitly: every place the source calls `Date.now()` the
embedding takes a `now : Nat` argument.  SQL rows are lists of records; a
`NULL`-able column is an `Option`.
-/

namespace RedisSQLite

/-- A row of `string_store`: `(key TEXT PRIMARY KEY, value TEXT, expiry INTEGER)`. -/
structure StrRow where
  key : String
  value : String
  expiry : Option Nat
deriving DecidableEq, Repr

/-- A row of `hash_store`: `(key, field, value, expiry)`, primary key `(key, field)`. -/
structure HashRow where
  key : String
  field : String
  value : String
  expiry : Option Nat
deriving DecidableEq, Repr

/-- A row of `list_store`: `(key, "index", value, expiry)`, primary key `(key, "index")`. -/
structure ListRow where
  key : String
  idx : Int
  value : String
  expiry : Option Nat
deriving DecidableEq, Repr

/-- A row of `set_store`: `(key, member, expiry)`, primary key `(key, member)`. -/
structure SetRow where
  key : String
  member : String
  expiry : Option Nat
deriving DecidableEq, Repr

/-- The four tables of the schema (section 3 of the spec). -/
structure Store where
  strings : List StrRow
  hashes : List HashRow
  lists : List ListRow
  sets : List SetRow
deriving DecidableEq, Repr

def Store.empty : Store := ⟨[], [], [], []⟩

/-- The SQL filter `expiry IS NULL OR expiry > now`. -/
def liveExp (e : Option Nat) (now : Nat) : Bool :=
  match e with
  | none => true
  | some t => now < t

/-- SQL: `SELECT 1 FROM string_store WHERE key = ? AND (expiry IS NULL OR expiry > ?)`. -/
def Store.stringLive (s : Store) (k : String) (now : Nat) : Bool :=
  s.strings.any (fun r => r.key == k && liveExp r.expiry now)

/-- SQL: `SELECT value FROM string_store WHERE key = ? AND (expiry IS NULL OR expiry > ?)`. -/
def Store.getString (s : Store) (k : String) (now : Nat) : Option String :=
  (s.strings.find? (fun r => r.key == k && liveExp r.expiry now)).map (fun r => r.value)

/-- SQL: `INSERT OR REPLACE INTO string_store (key, value) VALUES (?, ?)`.
`REPLACE` deletes any row conflicting on the primary key `key` and inserts a
fresh row; the unsupplied `expiry` column becomes `NULL`. -/
def Store.insertOrReplaceString (s : Store) (k v : String) : Store :=
  { s with strings := s.strings.filter (fun r => !(r.key == k)) ++ [⟨k, v, none⟩] }

/-- SQL: `INSERT OR REPLACE INTO hash_store (key, field, value) VALUES (?, ?, ?)`;
`expiry` of the fresh row is `NULL`. -/
def Store.insertOrReplaceHash (s : Store) (k f v : String) : Store :=
  { s with hashes := s.hashes.filter (fun r => !(r.key == k && r.field == f)) ++ [⟨k, f, v, none⟩] }

/-- All `list_store` rows of a key. -/
def Store.keyRows (s : Store) (k : String) : List ListRow :=
  s.lists.filter (fun r => r.key == k)

/-- SQL: `SELECT COUNT(*) FROM list_store WHERE key = ?`. -/
def Store.listCount (s : Store) (k : String) : Nat :=
  (s.keyRows k).length

/-- SQL: `UPDATE list_store SET "index" = "index" + n WHERE key = ?`. -/
def Store.shiftList (s : Store) (k : String) (n : Int) : Store :=
  { s with lists := s.lists.map (fun r => if r.key == k then { r with idx := r.idx + n } else r) }

/-- SQL: `UPDATE list_store SET "index" = "index" - 1 WHERE key = ?`. -/
def Store.decList (s : Store) (k : String) : Store :=
  { s with lists := s.lists.map (fun r => if r.key == k then { r with idx := r.idx - 1 } else r) }

/-- SQL: `DELETE FROM list_store WHERE key = ? AND "index" = ?`. -/
def Store.deleteListIdx (s : Store) (k : String) (i : Int) : Store :=
  { s with lists := s.lists.filter (fun r => !(r.key == k && r.idx == i)) }

/-- Errors surfaced by the SQL layer. -/
inductive SqlErr
  /-- Embeds `SQLITE_ERROR: cannot start a transaction within a transaction`. -/
  | beginNested
  /-- Embeds `SQLITE_ERROR: cannot commit - no transaction is active`. -/
  | commitNoTxn
  /-- Embeds `SQLITE_ERROR: cannot rollback - no transaction is active`. -/
  | rollbackNoTxn
  /-- Embeds `SQLITE_CONSTRAINT: UNIQUE constraint failed` (primary-key conflict). -/
  | pkConflict
  /-- Malformed statement, e.g. `... IN ()` built from an empty argument list. -/
  | badQuery
deriving DecidableEq, Repr

/-- Plain `INSERT INTO list_store (key, "index", value) VALUES (?, ?, ?)`:
fails on a `(key, "index")` primary-key conflict; `expiry` is `NULL`. -/
def Store.insertListRow (s : Store) (k : String) (i : Int) (v : String) : Except SqlErr Store :=
  if s.lists.any (fun r => r.key == k && r.idx == i) then .error .pkConflict
  else .ok { s with lists := s.lists ++ [⟨k, i, v, none⟩] }

/-- The loop `for (v of values) INSERT INTO list_store VALUES (key, start++, v)`.
A failing insert leaves the earlier inserts in place (no savepoint),
so the partially updated store is returned alongside the error. -/
def insertSeq (s : Store) (k : String) (start : Int) : List String → Store × Option SqlErr
  | [] => (s, none)
  | v :: rest =>
    match s.insertListRow k start v with
    | .error e => (s, some e)
    | .ok s1 => insertSeq s1 k (start + 1) rest

/-- SQL: `SELECT ... FROM list_store WHERE key = ? ORDER BY "index" ASC LIMIT 1`. -/
def Store.minListRow (s : Store) (k : String) : Option ListRow :=
  (s.keyRows k).foldl
    (fun acc r =>
      match acc with
      | none => some r
      | some b => if r.idx < b.idx then some r else acc)
    none

/-- SQL: `SELECT ... FROM list_store WHERE key = ? ORDER BY "index" DESC LIMIT 1`. -/
def Store.maxListRow (s : Store) (k : String) : Option ListRow :=
  (s.keyRows k).foldl
    (fun acc r =>
      match acc with
      | none => some r
      | some b => if b.idx < r.idx then some r else acc)
    none

/-- SQL: `ORDER BY "index" ASC` on a bag of rows. -/
def sortByIdx (l : List ListRow) : List ListRow :=
  l.insertionSort (fun a b => a.idx ≤ b.idx)

/-- SQL: `INSERT OR IGNORE INTO set_store (key, member) VALUES (?, ?)`; the returned
number is `changes` (`0` when the `(key, member)` primary key already exists). -/
def Store.insertIgnoreSet (s : Store) (k m : String) : Store × Nat :=
  if s.sets.any (fun r => r.key == k && r.member == m) then (s, 0)
  else ({ s with sets := s.sets ++ [⟨k, m, none⟩] }, 1)

/-- The `sadd` insert loop, accumulating `changes`. -/
def saddLoop (s : Store) (k : String) : List String → Store × Nat
  | [] => (s, 0)
  | m :: rest =>
    let p := s.insertIgnoreSet k m
    let q := saddLoop p.1 k rest
    (q.1, p.2 + q.2)

/-- SQL: `DELETE FROM hash_store WHERE key = ? AND field IN (...)`. -/
def Store.deleteHashFields (s : Store) (k : String) (fs : List String) : Store :=
  { s with hashes := s.hashes.filter (fun r => !(r.key == k && fs.contains r.field)) }

/-- Number of rows the `hdel` delete touches (`changes`). -/
def Store.countHashFields (s : Store) (k : String) (fs : List String) : Nat :=
  (s.hashes.filter (fun r => r.key == k && fs.contains r.field)).length

/-- SQL: `DELETE FROM set_store WHERE key = ? AND member IN (...)`. -/
def Store.deleteSetMembers (s : Store) (k : String) (ms : List String) : Store :=
  { s with sets := s.sets.filter (fun r => !(r.key == k && ms.contains r.member)) }

/-- Number of rows the `srem` delete touches (`changes`). -/
def Store.countSetMembers (s : Store) (k : String) (ms : List String) : Nat :=
  (s.sets.filter (fun r => r.key == k && ms.contains r.member)).length

/-- SQL: `DELETE FROM {table} WHERE key = ?` over all four tables, used by `del`. -/
def Store.deleteKeyEverywhere (s : Store) (k : String) : Store :=
  { strings := s.strings.filter (fun r => !(r.key == k))
    hashes := s.hashes.filter (fun r => !(r.key == k))
    lists := s.lists.filter (fun r => !(r.key == k))
    sets := s.sets.filter (fun r => !(r.key == k)) }

/-- SQL: `UPDATE {table} SET expiry = ? WHERE key = ?` over all four tables. -/
def Store.expireAll (s : Store) (k : String) (t : Nat) : Store :=
  { strings := s.strings.map (fun r => if r.key == k then { r with expiry := some t } else r)
    hashes := s.hashes.map (fun r => if r.key == k then { r with expiry := some t } else r)
    lists := s.lists.map (fun r => if r.key == k then { r with expiry := some t } else r)
    sets := s.sets.map (fun r => if r.key == k then { r with expiry := some t } else r) }

/-- Number of rows of a key across all four tables (the summed `changes` of
the four `expire` updates). -/
def Store.rowsOfKey (s : Store) (k : String) : Nat :=
  (s.strings.filter (fun r => r.key == k)).length +
  (s.hashes.filter (fun r => r.key == k)).length +
  (s.lists.filter (fun r => r.key == k)).length +
  (s.sets.filter (fun r => r.key == k)).length

/-- SQL: `SELECT expiry FROM {table} WHERE key = ? AND expiry IS NOT NULL LIMIT 1`
scanned over the four tables in the order used by `ttl`. -/
def Store.ttlLookup (s : Store) (k : String) : Option Nat :=
  match s.strings.find? (fun r => r.key == k && r.expiry.isSome) with
  | some r => r.expiry
  | none =>
    match s.hashes.find? (fun r => r.key == k && r.expiry.isSome) with
    | some r => r.expiry
    | none =>
      match s.lists.find? (fun r => r.key == k && r.expiry.isSome) with
      | some r => r.expiry
      | none =>
        match s.sets.find? (fun r => r.key == k && r.expiry.isSome) with
        | some r => r.expiry
        | none => none

/-- SQL: `SELECT 1 FROM {table} WHERE key = ? LIMIT 1` over the four tables (`exists`). -/
def Store.keyAnywhere (s : Store) (k : String) : Bool :=
  s.strings.any (fun r => r.key == k) || s.hashes.any (fun r => r.key == k) ||
  s.lists.any (fun r => r.key == k) || s.sets.any (fun r => r.key == k)

/-- Computes `Math.ceil(d / 1000)` on an integer number of milliseconds. -/
def ceilDiv1000 (d : Int) : Int :=
  Int.fdiv (d + 999) 1000

/-- The single SQLite connection: current table contents, whether a SQL
transaction is open, and the contents as of the last `BEGIN` (what a
`ROLLBACK` would restore). -/
structure Conn where
  store : Store
  txnOpen : Bool
  snapshot : Store
deriving DecidableEq, Repr

/-- Models `db.run("BEGIN TRANSACTION")`: SQLite rejects a nested `BEGIN`. -/
def Conn.beginTxn (c : Conn) : Except SqlErr Conn :=
  if c.txnOpen then .error .beginNested
  else .ok { c with txnOpen := true, snapshot := c.store }

/-- Models `db.run("COMMIT")`: fails when no transaction is active. -/
def Conn.commitTxn (c : Conn) : Except SqlErr Conn :=
  if c.txnOpen then .ok { c with txnOpen := false } else .error .commitNoTxn

/-- Models `db.run("ROLLBACK")`: restores the snapshot; fails when no transaction is
active. -/
def Conn.rollbackTxn (c : Conn) : Except SqlErr Conn :=
  if c.txnOpen then .ok { c with txnOpen := false, store := c.snapshot }
  else .error .rollbackNoTxn

/-- A buffered command, as recorded by `addCommand(command, args)`. -/
inductive Cmd
  | set (key value : String)
  | get (key : String)
  | lpush (key : String) (values : List String)
  | rpush (key : String) (values : List String)
  | lpop (key : String)
  | rpop (key : String)
  | lrange (key : String) (start stop : Int)
  | rpoplpush (source destination : String)
  | hset (key field value : String)
  | hmset (key : String) (fieldValues : List String)
  | hget (key field : String)
  | hdel (key : String) (fields : List String)
  | hmget (key : String) (fields : List String)
  | sadd (key : String) (members : List String)
  | srem (key : String) (members : List String)
  | sismember (key member : String)
  | smembers (key : String)
  | del (keys : List String)
  | expire (key : String) (seconds : Nat)
  | ttl (key : String)
  | flushdb
deriving DecidableEq, Repr

/-- Errors thrown by engine methods. -/
inductive RErr
  /-- Embeds `Error("Database not initialized")`. -/
  | notInitialized
  /-- Embeds `Error("WRONGTYPE Operation against a key holding the wrong kind of value")`. -/
  | wrongtype
  /-- Embeds `Error("Wrong number of arguments for HMSET")`. -/
  | wrongArgsHmset
  /-- Embeds `Error("No transaction in progress")`. -/
  | noTransaction
  /-- An error surfaced from the SQL layer. -/
  | sql (e : SqlErr)
deriving DecidableEq, Repr

/-- Values an engine method can resolve with. -/
inductive Ret
  /-- The string `"OK"`. -/
  | ok
  /-- An integer reply (covers counts and the signed `ttl` reply). -/
  | int (n : Int)
  /-- A string-or-nil reply. -/
  | str? (s : Option String)
  /-- An array of strings. -/
  | strs (l : List String)
  /-- An array of strings-or-nils. -/
  | opts (l : List (Option String))
  /-- Embeds `undefined` (`flushdb` resolves with no value). -/
  | unit
deriving DecidableEq, Repr

/-- The mutable state of a `RedisSQLite` instance (`src/redis-sqlite.ts`):
the nullable `db` handle, the two transaction flags, the MULTI buffer, the
`blockingOperations` waiter registry (flattened to `(key, waiter-id)` pairs)
and the expiry-checker interval id. -/
structure Engine where
  db : Option Conn
  inTransaction : Bool
  transactionMode : Bool
  transactionCommands : List Cmd
  waiters : List (String × Nat)
  expiryCheckerId : Option Nat
deriving DecidableEq, Repr

/-- A freshly `connect()`ed engine over given table contents. -/
def mkEngine (s : Store) : Engine :=
  { db := some ⟨s, false, s⟩
    inTransaction := false
    transactionMode := false
    transactionCommands := []
    waiters := []
    expiryCheckerId := some 0 }

/-- The catch block shared by `lpush`, `rpush`, `lpop`, `sadd`, `rpoplpush`:
`if (!this.inTransaction && !this.transactionMode) { ROLLBACK; this.inTransaction = false; }
throw error;`.  A failing `ROLLBACK` replaces the original error and skips the
flag reset. -/
def Engine.guardedCatch (e : Engine) (err : RErr) : Except RErr α × Engine :=
  if !e.inTransaction && !e.transactionMode then
    match e.db with
    | some c =>
      match c.rollbackTxn with
      | .ok c1 => (.error err, { e with db := some c1, inTransaction := false })
      | .error se => (.error (.sql se), e)
    | none => (.error err, e)
  else (.error err, e)

/-- Embeds `set(key, value)`: `INSERT OR REPLACE INTO string_store (key, value)`. -/
def Engine.set (e : Engine) (key value : String) : Except RErr String × Engine :=
  match e.db with
  | none => (.error .notInitialized, e)
  | some c =>
    (.ok "OK", { e with db := some { c with store := c.store.insertOrReplaceString key value } })

/-- Embeds `get(key)`: live string lookup. -/
def Engine.get (e : Engine) (now : Nat) (key : String) : Except RErr (Option String) × Engine :=
  match e.db with
  | none => (.error .notInitialized, e)
  | some c => (.ok (c.store.getString key now), e)

/-- Embeds `lpush(key, ...values)`: WRONGTYPE check against the string store, then,
inside a flag-guarded transaction, shift all rows of the key up by
`values.length` and insert the values at indices `0 … n-1` in reverse argument
order; the reply is `SELECT COUNT(*)` of the key afterwards.  Note that the
source sets `this.inTransaction = true` right after its own `BEGIN`, which
makes its `COMMIT` branch unreachable. -/
def Engine.lpush (e : Engine) (now : Nat) (key : String) (values : List String) :
    Except RErr Nat × Engine :=
  match e.db with
  | none => (.error .notInitialized, e)
  | some c0 =>
    if c0.store.stringLive key now then (.error .wrongtype, e)
    else
      let began := !e.inTransaction && !e.transactionMode
      match (if began then c0.beginTxn else .ok c0) with
      | .error se => (.error (.sql se), e)
      | .ok c1 =>
        let e1 : Engine := { e with db := some c1, inTransaction := e.inTransaction || began }
        let st1 := c1.store.shiftList key values.length
        match insertSeq st1 key 0 values.reverse with
        | (st2, some se) => Engine.guardedCatch { e1 with db := some { c1 with store := st2 } } (.sql se)
        | (st2, none) =>
          let e2 : Engine := { e1 with db := some { c1 with store := st2 } }
          if !e2.inTransaction && !e2.transactionMode then
            match Conn.commitTxn { c1 with store := st2 } with
            | .error se => Engine.guardedCatch e2 (.sql se)
            | .ok c3 =>
              (.ok (c3.store.listCount key), { e2 with db := some c3, inTransaction := false })
          else (.ok (st2.listCount key), e2)

/-- Embeds `rpush(key, ...values)`: WRONGTYPE check, read the current length, then
append the values at indices `[len, len+n)`; the reply is the incremented
length counter. -/
def Engine.rpush (e : Engine) (now : Nat) (key : String) (values : List String) :
    Except RErr Nat × Engine :=
  match e.db with
  | none => (.error .notInitialized, e)
  | some c0 =>
    if c0.store.stringLive key now then (.error .wrongtype, e)
    else
      let len0 := c0.store.listCount key
      let began := !e.inTransaction && !e.transactionMode
      match (if began then c0.beginTxn else .ok c0) with
      | .error se => (.error (.sql se), e)
      | .ok c1 =>
        let e1 : Engine := { e with db := some c1, inTransaction := e.inTransaction || began }
        match insertSeq c1.store key len0 values with
        | (st2, some se) => Engine.guardedCatch { e1 with db := some { c1 with store := st2 } } (.sql se)
        | (st2, none) =>
          let e2 : Engine := { e1 with db := some { c1 with store := st2 } }
          if !e2.inTransaction && !e2.transactionMode then
            match Conn.commitTxn { c1 with store := st2 } with
            | .error se => Engine.guardedCatch e2 (.sql se)
            | .ok c3 => (.ok (len0 + values.length), { e2 with db := some c3, inTransaction := false })
          else (.ok (len0 + values.length), e2)

/-- Embeds `lpop(key)`: read the row with the smallest index; if present, delete the
row at index `0` and shift every remaining row of the key down by one. -/
def Engine.lpop (e : Engine) (key : String) : Except RErr (Option String) × Engine :=
  match e.db with
  | none => (.error .notInitialized, e)
  | some c0 =>
    match c0.store.minListRow key with
    | none => (.ok none, e)
    | some r =>
      let began := !e.inTransaction && !e.transactionMode
      match (if began then c0.beginTxn else .ok c0) with
      | .error se => (.error (.sql se), e)
      | .ok c1 =>
        let e1 : Engine := { e with db := some c1, inTransaction := e.inTransaction || began }
        let st2 := (c1.store.deleteListIdx key 0).decList key
        let e2 : Engine := { e1 with db := some { c1 with store := st2 } }
        if !e2.inTransaction && !e2.transactionMode then
          match Conn.commitTxn { c1 with store := st2 } with
          | .error se => Engine.guardedCatch e2 (.sql se)
          | .ok c3 => (.ok (some r.value), { e2 with db := some c3, inTransaction := false })
        else (.ok (some r.value), e2)

/-- Embeds `rpop(key, inTransaction = false)`: read the row with the greatest index
and delete it.  The transaction guard here uses the `inTransaction`
*parameter*, not the instance flag, so a standalone `rpop` does commit — and
its `BEGIN` fails when a SQL transaction is already open. -/
def Engine.rpop (e : Engine) (key : String) (inTxParam : Bool) : Except RErr (Option String) × Engine :=
  match e.db with
  | none => (.error .notInitialized, e)
  | some c0 =>
    match c0.store.maxListRow key with
    | none => (.ok none, e)
    | some r =>
      match (if !inTxParam then c0.beginTxn else .ok c0) with
      | .error se => (.error (.sql se), e)
      | .ok c1 =>
        let e1 : Engine := { e with db := some c1, inTransaction := e.inTransaction || !inTxParam }
        let c2 : Conn := { c1 with store := c1.store.deleteListIdx key r.idx }
        if !inTxParam then
          match c2.commitTxn with
          | .ok c3 => (.ok (some r.value), { e1 with db := some c3, inTransaction := false })
          | .error se =>
            match c2.rollbackTxn with
            | .ok c3 => (.error (.sql se), { e1 with db := some c3, inTransaction := false })
            | .error se2 => (.error (.sql se2), { e1 with db := some c2 })
        else (.ok (some r.value), { e1 with db := some c2 })

/-- Embeds `lrange(key, start, stop)`: clamp Redis negative indices against the
current length, then return the values with index in the inclusive range,
ordered by index. -/
def Engine.lrange (e : Engine) (key : String) (start stop : Int) :
    Except RErr (List String) × Engine :=
  match e.db with
  | none => (.error .notInitialized, e)
  | some c =>
    let length : Int := c.store.listCount key
    let realStart := max 0 (if 0 ≤ start then start else length + start)
    let realStop := min (length - 1) (if 0 ≤ stop then stop else length + stop)
    if realStop < realStart then (.ok [], e)
    else
      (.ok ((sortByIdx ((c.store.keyRows key).filter
          (fun r => realStart ≤ r.idx && r.idx ≤ realStop))).map (fun r => r.value)), e)

/-- Embeds `rpoplpush(source, destination)`: inside a flag-guarded transaction,
`rpop(source, true)` then `lpush(destination, value)`. -/
def Engine.rpoplpush (e : Engine) (now : Nat) (source destination : String) :
    Except RErr (Option String) × Engine :=
  match e.db with
  | none => (.error .notInitialized, e)
  | some c0 =>
    let began := !e.inTransaction && !e.transactionMode
    match (if began then c0.beginTxn else .ok c0) with
    | .error se => (.error (.sql se), e)
    | .ok c1 =>
      let e1 : Engine := { e with db := some c1, inTransaction := e.inTransaction || began }
      match e1.rpop source true with
      | (.ok (some v), e2) =>
        match e2.lpush now destination [v] with
        | (.ok _, e3) =>
          if !e3.inTransaction && !e3.transactionMode then
            match e3.db with
            | some c =>
              match c.commitTxn with
              | .ok c4 => (.ok (some v), { e3 with db := some c4, inTransaction := false })
              | .error se => Engine.guardedCatch e3 (.sql se)
            | none => (.ok (some v), e3)
          else (.ok (some v), e3)
        | (.error err, e3) => Engine.guardedCatch e3 err
      | (.ok none, e2) =>
        if !e2.inTransaction && !e2.transactionMode then
          match e2.db with
          | some c =>
            match c.rollbackTxn with
            | .ok c4 => (.ok none, { e2 with db := some c4, inTransaction := false })
            | .error se => Engine.guardedCatch e2 (.sql se)
          | none => (.ok none, e2)
        else (.ok none, e2)
      | (.error err, e2) => Engine.guardedCatch e2 err

/-- Embeds `hset(key, field, value)`: `INSERT OR REPLACE INTO hash_store`; the reply
is `result.changes`, which is `1` for both a fresh insert and a replacement
(SQLite does not count the rows removed by `REPLACE` conflict resolution). -/
def Engine.hset (e : Engine) (key field value : String) : Except RErr Nat × Engine :=
  match e.db with
  | none => (.error .notInitialized, e)
  | some c =>
    (.ok 1, { e with db := some { c with store := c.store.insertOrReplaceHash key field value } })

/-- The field/value pairing of `hmset`: `for (i = 0; i < fv.length; i += 2)`. -/
def hmsetPairs : List String → List (String × String)
  | f :: v :: rest => (f, v) :: hmsetPairs rest
  | _ => []

/-- Embeds `hmset(key, ...fieldValues)`: arity check, then an *unconditional*
`BEGIN TRANSACTION`, the `hset` loop, and `COMMIT`.  The `BEGIN` is issued
before the try block, so when a transaction is already open the nested-`BEGIN`
error propagates directly (no rollback). -/
def Engine.hmset (e : Engine) (key : String) (fieldValues : List String) :
    Except RErr String × Engine :=
  match e.db with
  | none => (.error .notInitialized, e)
  | some c0 =>
    if fieldValues.length % 2 != 0 then (.error .wrongArgsHmset, e)
    else
      match c0.beginTxn with
      | .error se => (.error (.sql se), e)
      | .ok c1 =>
        let st := (hmsetPairs fieldValues).foldl
          (fun st p => st.insertOrReplaceHash key p.1 p.2) c1.store
        match Conn.commitTxn { c1 with store := st } with
        | .ok c3 => (.ok "OK", { e with db := some c3 })
        | .error se =>
          match Conn.rollbackTxn { c1 with store := st } with
          | .ok c3 => (.error (.sql se), { e with db := some c3 })
          | .error se2 => (.error (.sql se2), { e with db := some { c1 with store := st } })

/-- Embeds `hget(key, field)`: WRONGTYPE check against the string store, then live
hash lookup. -/
def Engine.hget (e : Engine) (now : Nat) (key field : String) :
    Except RErr (Option String) × Engine :=
  match e.db with
  | none => (.error .notInitialized, e)
  | some c =>
    if c.store.stringLive key now then (.error .wrongtype, e)
    else
      (.ok ((c.store.hashes.find?
        (fun r => r.key == key && r.field == field && liveExp r.expiry now)).map
          (fun r => r.value)), e)

/-- Embeds `hdel(key, ...fields)`: one `DELETE … field IN (…)`; an empty field list
produces the malformed statement `IN ()`.  The reply is `changes`. -/
def Engine.hdel (e : Engine) (key : String) (fields : List String) : Except RErr Nat × Engine :=
  match e.db with
  | none => (.error .notInitialized, e)
  | some c =>
    if fields.isEmpty then (.error (.sql .badQuery), e)
    else
      (.ok (c.store.countHashFields key fields),
       { e with db := some { c with store := c.store.deleteHashFields key fields } })

/-- Embeds `hmget(key, ...fields)`: one live lookup per field, in argument order. -/
def Engine.hmget (e : Engine) (now : Nat) (key : String) (fields : List String) :
    Except RErr (List (Option String)) × Engine :=
  match e.db with
  | none => (.error .notInitialized, e)
  | some c =>
    (.ok (fields.map (fun f =>
      (c.store.hashes.find?
        (fun r => r.key == key && r.field == f && liveExp r.expiry now)).map
          (fun r => r.value))), e)

/-- Embeds `sadd(key, ...members)`: WRONGTYPE check, then `INSERT OR IGNORE` per
member inside a flag-guarded transaction, accumulating `changes`. -/
def Engine.sadd (e : Engine) (now : Nat) (key : String) (members : List String) :
    Except RErr Nat × Engine :=
  match e.db with
  | none => (.error .notInitialized, e)
  | some c0 =>
    if c0.store.stringLive key now then (.error .wrongtype, e)
    else
      let began := !e.inTransaction && !e.transactionMode
      match (if began then c0.beginTxn else .ok c0) with
      | .error se => (.error (.sql se), e)
      | .ok c1 =>
        let e1 : Engine := { e with db := some c1, inTransaction := e.inTransaction || began }
        let p := saddLoop c1.store key members
        let e2 : Engine := { e1 with db := some { c1 with store := p.1 } }
        if !e2.inTransaction && !e2.transactionMode then
          match Conn.commitTxn { c1 with store := p.1 } with
          | .error se => Engine.guardedCatch e2 (.sql se)
          | .ok c3 => (.ok p.2, { e2 with db := some c3, inTransaction := false })
        else (.ok p.2, e2)

/-- Embeds `srem(key, ...members)`: one `DELETE … member IN (…)`; empty member list
is a malformed statement.  The reply is `changes`. -/
def Engine.srem (e : Engine) (key : String) (members : List String) : Except RErr Nat × Engine :=
  match e.db with
  | none => (.error .notInitialized, e)
  | some c =>
    if members.isEmpty then (.error (.sql .badQuery), e)
    else
      (.ok (c.store.countSetMembers key members),
       { e with db := some { c with store := c.store.deleteSetMembers key members } })

/-- Embeds `sismember(key, member)`: `1` when a live row exists, else `0`. -/
def Engine.sismember (e : Engine) (now : Nat) (key member : String) : Except RErr Nat × Engine :=
  match e.db with
  | none => (.error .notInitialized, e)
  | some c =>
    (.ok (if c.store.sets.any
        (fun r => r.key == key && r.member == member && liveExp r.expiry now) then 1 else 0), e)

/-- Embeds `smembers(key)`: live members ordered by `member` ascending. -/
def Engine.smembers (e : Engine) (now : Nat) (key : String) : Except RErr (List String) × Engine :=
  match e.db with
  | none => (.error .notInitialized, e)
  | some c =>
    (.ok (((c.store.sets.filter
        (fun r => r.key == key && liveExp r.expiry now)).insertionSort
          (fun a b => a.member ≤ b.member)).map (fun r => r.member)), e)

/-- The `del` loop over one table: for each key, delete its rows and count `1`
when at least one row went away. -/
def delKeysFrom {ρ : Type} (rowKey : ρ → String) (rows : List ρ) : List String → List ρ × Nat
  | [] => (rows, 0)
  | k :: rest =>
    let removed := (rows.filter (fun r => rowKey r == k)).length
    let p := delKeysFrom rowKey (rows.filter (fun r => !(rowKey r == k))) rest
    (p.1, (if 0 < removed then 1 else 0) + p.2)

/-- Embeds `del(...keys)`: unconditional `BEGIN` (before the try block), the per-table
per-key delete loop, `COMMIT`; the reply counts `(table, key)` pairs that had
rows. -/
def Engine.del (e : Engine) (keys : List String) : Except RErr Nat × Engine :=
  match e.db with
  | none => (.error .notInitialized, e)
  | some c0 =>
    match c0.beginTxn with
    | .error se => (.error (.sql se), e)
    | .ok c1 =>
      let p1 := delKeysFrom StrRow.key c1.store.strings keys
      let p2 := delKeysFrom HashRow.key c1.store.hashes keys
      let p3 := delKeysFrom ListRow.key c1.store.lists keys
      let p4 := delKeysFrom SetRow.key c1.store.sets keys
      let c2 : Conn := { c1 with store := ⟨p1.1, p2.1, p3.1, p4.1⟩ }
      match c2.commitTxn with
      | .ok c3 => (.ok (p1.2 + p2.2 + p3.2 + p4.2), { e with db := some c3 })
      | .error se =>
        match c2.rollbackTxn with
        | .ok c3 => (.error (.sql se), { e with db := some c3 })
        | .error se2 => (.error (.sql se2), { e with db := some c2 })

/-- Embeds `expire(key, seconds)`: set `expiry = now + seconds*1000` on every row of
the key in all four tables; reply `1` when any row was updated. -/
def Engine.expire (e : Engine) (now : Nat) (key : String) (seconds : Nat) :
    Except RErr Nat × Engine :=
  match e.db with
  | none => (.error .notInitialized, e)
  | some c =>
    (.ok (if 0 < c.store.rowsOfKey key then 1 else 0),
     { e with db := some { c with store := c.store.expireAll key (now + seconds * 1000) } })

/-- Embeds `ttl(key)`: scan the four tables for a row of the key with a non-NULL
expiry; reply `ceil((expiry - now)/1000)` when positive, `-1` when not, and
`-2` when no such row exists. -/
def Engine.ttl (e : Engine) (now : Nat) (key : String) : Except RErr Int × Engine :=
  match e.db with
  | none => (.error .notInitialized, e)
  | some c =>
    match c.store.ttlLookup key with
    | none => (.ok (-2), e)
    | some t =>
      let v := ceilDiv1000 ((t : Int) - (now : Int))
      (.ok (if 0 < v then v else -1), e)

/-- Embeds `flushdb()`: unconditional `BEGIN`, truncate the four tables, `COMMIT`. -/
def Engine.flushdb (e : Engine) : Except RErr Unit × Engine :=
  match e.db with
  | none => (.error .notInitialized, e)
  | some c0 =>
    match c0.beginTxn with
    | .error se => (.error (.sql se), e)
    | .ok c1 =>
      let c2 : Conn := { c1 with store := Store.empty }
      match c2.commitTxn with
      | .ok c3 => (.ok (), { e with db := some c3 })
      | .error se =>
        match c2.rollbackTxn with
        | .ok c3 => (.error (.sql se), { e with db := some c3 })
        | .error se2 => (.error (.sql se2), { e with db := some c2 })

/-- Embeds `multi()`: enter buffering mode and clear the buffer. -/
def Engine.multi (e : Engine) : Engine :=
  { e with transactionMode := true, transactionCommands := [] }

/-- Embeds `addCommand(command, args)`: append to the buffer; fails outside a MULTI. -/
def Engine.addCommand (e : Engine) (c : Cmd) : Except RErr Unit × Engine :=
  if !e.transactionMode then (.error .noTransaction, e)
  else (.ok (), { e with transactionCommands := e.transactionCommands ++ [c] })

/-- Embeds `close()`: stop the expiry checker and drop the database handle. -/
def Engine.close (e : Engine) : Engine :=
  { e with expiryCheckerId := none, db := none }

/-- Running one command, as `exec` does via `(this as any)[cmd.command](...)`
and as a caller does directly. -/
def Engine.dispatch (e : Engine) (now : Nat) : Cmd → Except RErr Ret × Engine
  | .set k v => ((e.set k v).1.map (fun _ => .ok), (e.set k v).2)
  | .get k => ((e.get now k).1.map .str?, (e.get now k).2)
  | .lpush k vs => ((e.lpush now k vs).1.map (fun n => .int n), (e.lpush now k vs).2)
  | .rpush k vs => ((e.rpush now k vs).1.map (fun n => .int n), (e.rpush now k vs).2)
  | .lpop k => ((e.lpop k).1.map .str?, (e.lpop k).2)
  | .rpop k => ((e.rpop k false).1.map .str?, (e.rpop k false).2)
  | .lrange k a b => ((e.lrange k a b).1.map .strs, (e.lrange k a b).2)
  | .rpoplpush s d => ((e.rpoplpush now s d).1.map .str?, (e.rpoplpush now s d).2)
  | .hset k f v => ((e.hset k f v).1.map (fun n => .int n), (e.hset k f v).2)
  | .hmset k fvs => ((e.hmset k fvs).1.map (fun _ => .ok), (e.hmset k fvs).2)
  | .hget k f => ((e.hget now k f).1.map .str?, (e.hget now k f).2)
  | .hdel k fs => ((e.hdel k fs).1.map (fun n => .int n), (e.hdel k fs).2)
  | .hmget k fs => ((e.hmget now k fs).1.map .opts, (e.hmget now k fs).2)
  | .sadd k ms => ((e.sadd now k ms).1.map (fun n => .int n), (e.sadd now k ms).2)
  | .srem k ms => ((e.srem k ms).1.map (fun n => .int n), (e.srem k ms).2)
  | .sismember k m => ((e.sismember now k m).1.map (fun n => .int n), (e.sismember now k m).2)
  | .smembers k => ((e.smembers now k).1.map .strs, (e.smembers now k).2)
  | .del ks => ((e.del ks).1.map (fun n => .int n), (e.del ks).2)
  | .expire k s => ((e.expire now k s).1.map (fun n => .int n), (e.expire now k s).2)
  | .ttl k => ((e.ttl now k).1.map .int, (e.ttl now k).2)
  | .flushdb => ((e.flushdb).1.map (fun _ => .unit), (e.flushdb).2)

/-- The WRONGTYPE pre-check `exec` performs for `hget`/`hset`/`hmset` buffered
commands before dispatching them. -/
def execPre (st : Store) (now : Nat) : Cmd → Bool
  | .hget k _ => st.stringLive k now
  | .hset k _ _ => st.stringLive k now
  | .hmset k _ => st.stringLive k now
  | _ => false

/-- The `exec` loop: per command, run the pre-check and the command, catching
any error into that command's `(error, value)` slot. -/
def Engine.execLoop (e : Engine) (now : Nat) : List Cmd → List (Option RErr × Option Ret) × Engine
  | [] => ([], e)
  | c :: rest =>
    let step : (Option RErr × Option Ret) × Engine :=
      match e.db with
      | some conn =>
        if execPre conn.store now c then ((some .wrongtype, none), e)
        else
          match e.dispatch now c with
          | (.ok v, e1) => ((none, some v), e1)
          | (.error err, e1) => ((some err, none), e1)
      | none =>
        match e.dispatch now c with
        | (.ok v, e1) => ((none, some v), e1)
        | (.error err, e1) => ((some err, none), e1)
    let p := Engine.execLoop step.2 now rest
    (step.1 :: p.1, p.2)

/-- The `exec` catch block: rollback when the instance flag says a transaction
is open, clear the MULTI state, rethrow.  A failing `ROLLBACK` replaces the
error and skips the state reset. -/
def Engine.execCatch (e : Engine) (err : RErr) :
    Except RErr (List (Option RErr × Option Ret)) × Engine :=
  if e.inTransaction then
    match e.db with
    | some c =>
      match c.rollbackTxn with
      | .ok c1 =>
        (.error err,
         { e with
             db := some c1
             inTransaction := false
             transactionMode := false
             transactionCommands := [] })
      | .error se => (.error (.sql se), e)
    | none => (.error err, { e with transactionMode := false, transactionCommands := [] })
  else (.error err, { e with transactionMode := false, transactionCommands := [] })

/-- Embeds `exec()`: flag-guarded `BEGIN`, the buffered-command loop, unconditional
`COMMIT`, then reset of the MULTI state. -/
def Engine.exec (e : Engine) (now : Nat) :
    Except RErr (List (Option RErr × Option Ret)) × Engine :=
  match e.db with
  | none => (.error .notInitialized, e)
  | some c0 =>
    if !e.transactionMode then (.error .noTransaction, e)
    else
      match (if !e.inTransaction then c0.beginTxn else .ok c0) with
      | .error se => Engine.execCatch e (.sql se)
      | .ok c1 =>
        let e1 : Engine := { e with db := some c1, inTransaction := true }
        let p := e1.execLoop now e.transactionCommands
        match p.2.db with
        | some c2 =>
          match c2.commitTxn with
          | .ok c3 =>
            (.ok p.1,
             { p.2 with
                 db := some c3
                 inTransaction := false
                 transactionMode := false
                 transactionCommands := [] })
          | .error se => Engine.execCatch p.2 (.sql se)
        | none => Engine.execCatch p.2 .notInitialized

/-- Embeds `removeBlockingOperation`: splice out the first matching waiter. -/
def removeFirstWaiter : List (String × Nat) → String × Nat → List (String × Nat)
  | [], _ => []
  | q :: rest, p => if q = p then rest else q :: removeFirstWaiter rest p

/-- Embeds `addBlockingOperation(key, resolver)`: append a waiter for the key. -/
def Engine.addWaiter (e : Engine) (key : String) (id : Nat) : Engine :=
  { e with waiters := e.waiters ++ [(key, id)] }

/-- The `setTimeout` callback of `brpoplpush`: remove the waiter and resolve
the blocked call with `null`. -/
def Engine.brpoplpushTimeout (e : Engine) (source : String) (id : Nat) :
    Option String × Engine :=
  (none, { e with waiters := removeFirstWaiter e.waiters (source, id) })

/-- The table contents currently visible through the connection. -/
def Engine.storeOf (e : Engine) : Store :=
  match e.db with
  | some c => c.store
  | none => Store.empty

/-- Issue a list of commands one after another, directly (each command's
error, if any, is reported to its caller and the next command still runs). -/
def Engine.runAll (e : Engine) (now : Nat) : List Cmd → Engine
  | [] => e
  | c :: rest => Engine.runAll (e.dispatch now c).2 now rest

/-- Queue a list of commands through `addCommand`. -/
def Engine.queueAll (e : Engine) : List Cmd → Engine
  | [] => e
  | c :: rest => Engine.queueAll (e.addCommand c).2 rest

end RedisSQLite

namespace TP

open RedisSQLite

/-!
The `typepersist`-backed variant (`src/redis-sqlite-typepersist.ts`).  Its
query builder compiles to SQL, so a comparison against a `NULL` column is
never satisfied: `.where("expiry", Cmp.Gt, now)` rejects rows whose `expiry`
is `NULL`.
-/

/-- The SQL filter `expiry > now` (false on a `NULL` expiry). -/
def expiryGt (e : Option Nat) (now : Nat) : Bool :=
  match e with
  | none => false
  | some t => now < t

/-- Embeds `get(key)` of the typepersist variant:
`.where("key", Cmp.Eq, key).and("expiry", Cmp.Gt, now).first()` —
note there is no `expiry IS NULL` branch. -/
def get (rows : List StrRow) (k : String) (now : Nat) : Option String :=
  (rows.find? (fun r => r.key == k && expiryGt r.expiry now)).map (fun r => r.value)

/-- Embeds `set(key, value)` of the typepersist variant: look the key up with no
expiry filter; update only the `value` column of the found row, otherwise
insert `{key, value}` (expiry `NULL`). -/
def set : List StrRow → String → String → List StrRow
  | [], k, v => [⟨k, v, none⟩]
  | r :: rest, k, v =>
    if r.key == k then { r with value := v } :: rest else r :: set rest k v

/-- Embeds `hset(key, field, value)` of the typepersist variant: look the field up;
update its `value` or insert a fresh row; the reply is `result ? 1 : 0`, i.e.
`1` when the field already existed and `0` when it was new. -/
def hset : List HashRow → String → String → String → Nat × List HashRow
  | [], k, f, v => (0, [⟨k, f, v, none⟩])
  | r :: rest, k, f, v =>
    if r.key == k && r.field == f then (1, { r with value := v } :: rest)
    else
      let p := hset rest k f v
      (p.1, r :: p.2)

end TP

namespace RedisSQLite

/-!  Spec-side notions used to state the claims.  -/

/-- The list `[0, 1, …, n-1]` as integers. -/
def intRange (n : Nat) : List Int :=
  (List.range n).map Int.ofNat

/-- The `list_store` indices of a key. -/
def Store.keyIdxs (s : Store) (k : String) : List Int :=
  (s.keyRows k).map (fun r => r.idx)

/-- List contiguity (spec section 3): the stored indices for a key are exactly
`{0, 1, …, len-1}`. -/
def contigAt (s : Store) (k : String) : Prop :=
  (s.keyIdxs k).Perm (intRange (s.keyIdxs k).length)

instance (s : Store) (k : String) : Decidable (contigAt s k) := by
  unfold contigAt; infer_instance

/-- The instance flag and the SQL connection agree on whether a transaction is
open. -/
def Engine.flagsSync (e : Engine) : Bool :=
  match e.db with
  | some c => e.inTransaction == c.txnOpen
  | none => false

/-- Commands that defer transaction control to their caller and whose
WRONGTYPE checking is the same inside and outside `exec`. -/
def execSafe : Cmd → Bool
  | .set _ _ => true
  | .get _ => true
  | .lpush _ _ => true
  | .rpush _ _ => true
  | .lpop _ => true
  | .lrange _ _ _ => true
  | .rpoplpush _ _ => true
  | .hget _ _ => true
  | .hdel _ _ => true
  | .hmget _ _ => true
  | .sadd _ _ => true
  | .srem _ _ => true
  | .sismember _ _ => true
  | .smembers _ => true
  | .expire _ _ => true
  | .ttl _ => true
  | _ => false

/-- The five list operations of claim C4. -/
def isListOp : Cmd → Bool
  | .lpush _ _ => true
  | .rpush _ _ => true
  | .lpop _ => true
  | .rpop _ => true
  | .lrange _ _ _ => true
  | _ => false

/-- The effect of one command on the table contents when it runs inside an
already-open transaction (equally, its direct-mode store effect for the
`execSafe` commands). -/
def stepT (st : Store) (now : Nat) : Cmd → Store
  | .set k v => st.insertOrReplaceString k v
  | .lpush k vs =>
    if st.stringLive k now then st
    else (insertSeq (st.shiftList k vs.length) k 0 vs.reverse).1
  | .rpush k vs =>
    if st.stringLive k now then st
    else (insertSeq st k (st.listCount k) vs).1
  | .lpop k =>
    match st.minListRow k with
    | none => st
    | some _ => (st.deleteListIdx k 0).decList k
  | .rpoplpush src dst =>
    match st.maxListRow src with
    | none => st
    | some r =>
      let st1 := st.deleteListIdx src r.idx
      if st1.stringLive dst now then st1
      else (insertSeq (st1.shiftList dst ([r.value].length : Int)) dst 0 [r.value].reverse).1
  | .hdel k fs => if fs.isEmpty then st else st.deleteHashFields k fs
  | .sadd k ms => if st.stringLive k now then st else (saddLoop st k ms).1
  | .srem k ms => if ms.isEmpty then st else st.deleteSetMembers k ms
  | .expire k secs => st.expireAll k (now + secs * 1000)
  | _ => st

/-- The result shape of dispatching an `execSafe` command on an engine whose
`inTransaction` flag agrees with the connection (`e.db = some c`,
`e.inTransaction = c.txnOpen`): the engine keeps its mode, buffer and waiters,
the store becomes `st1`, the flag stays in sync, and an open transaction stays
open. -/
def SafeStepOut (e : Engine) (c : Conn) (st1 : Store) (e1 : Engine) : Prop :=
  ∃ c1 : Conn,
    e1 = { e with db := some c1, inTransaction := c1.txnOpen } ∧
    c1.store = st1 ∧
    (c.txnOpen = true → c1.txnOpen = true)

/-- Folding the in-transaction store effect over a command list. -/
def foldStepT (st : Store) (now : Nat) (cmds : List Cmd) : Store :=
  cmds.foldl (fun s c => stepT s now c) st

/-- The rows the `lpush`/`rpush` insert loop adds for a key: the given values
at consecutive indices starting at `start`, with NULL expiry. -/
def seqRows (k : String) (start : Int) : List String → List ListRow
  | [] => []
  | v :: rest => ⟨k, start, v, none⟩ :: seqRows k (start + 1) rest

end RedisSQLite

namespace RedisSQLite

/-!  Theorems.  -/

/-- C10: after `close()` every engine command (SET, GET, LPUSH, HSET, DEL and
the rest of the dispatchable commands) rejects with the
`Database not initialized` error and leaves the engine — hence every store —
unchanged, and `close()` clears the expiry-checker interval so no further
reaping occurs. -/
theorem C10_close_rejects_commands (e : Engine) (now : Nat) (c : Cmd) :
    e.close.dispatch now c = (.error .notInitialized, e.close) ∧
    e.close.expiryCheckerId = none := by
  refine ⟨?_, rfl⟩
  cases c <;> rfl

/-- C1: the claim asserts the SET/GET round-trip in both engine variants.  It
holds in the sqlite-backed engine, but in the typepersist engine `get`
filters with `expiry > now` and no `expiry IS NULL` branch, so a key freshly
written by `set` (whose expiry column is NULL) reads back as nil, not `v`. -/
theorem C1_get_after_set_divergence :
    (((mkEngine Store.empty).set "foo" "bar").2.get 0 "foo").1 = .ok (some "bar") ∧
    TP.get (TP.set [] "foo" "bar") "foo" 0 = none := ⟨rfl, rfl⟩

/-- C6: the claim asserts HSET replies `1` for a new field and `0` for a
replacement.  The typepersist variant replies `0` for the new field
`HSET h f1 a` on an empty store, and the sqlite variant replies `1` for the
replacing `HSET h f1 b` (the `changes` counter of `INSERT OR REPLACE` is `1`
in both cases). -/
theorem C6_hset_return_divergence :
    (TP.hset [] "h" "f1" "a").1 = 0 ∧
    ((((mkEngine Store.empty).hset "h" "f1" "a").2.hset "h" "f1" "b").1 = .ok 1) := ⟨rfl, rfl⟩

/-- C8 counterexample: in the sqlite-backed engine, `SET` on a key whose
string row carries expiry `5000` leaves a row with expiry NULL — the
`INSERT OR REPLACE` deletes the old row, so the expiry is not preserved. -/
theorem C8_cex_set_clears_expiry :
    ((mkEngine ⟨[⟨"k", "v", some 5000⟩], [], [], []⟩).set "k" "w").2.storeOf.strings
      = [⟨"k", "w", none⟩] ∧ (none : Option Nat) ≠ some 5000 := ⟨rfl, by decide⟩

/-- C8 amended: the typepersist variant does preserve the expiry: its `set`
updates only the `value` column of the existing row, so the key and expiry of
every row survive and the key's row now carries the new value. -/
theorem C8_typepersist_set_preserves_expiry (rows : List StrRow) (k v : String)
    (h : rows.any (fun r => r.key == k) = true) :
    ((TP.set rows k v).map fun r => (r.key, r.expiry)) = (rows.map fun r => (r.key, r.expiry)) ∧
    (TP.set rows k v).find? (fun r => r.key == k)
      = (rows.find? (fun r => r.key == k)).map (fun r => { r with value := v }) := by
  induction rows with
  | nil => simp at h
  | cons r rest ih =>
    by_cases hk : (r.key == k) = true
    · simp [TP.set, hk, List.find?]
    · have hrest : rest.any (fun r => r.key == k) = true := by
        simpa [List.any_cons, hk] using h
      have ihh := ih hrest
      simp only [TP.set, hk, if_false, List.map_cons, List.find?]
      rw [Bool.not_eq_true] at hk
      simp [hk, ihh.1, ihh.2]

/-- Witness for C8 amended at a concrete input. -/
theorem C8_typepersist_set_preserves_expiry_witness :
    ([⟨"k", "v", some 7 ⟩] : List StrRow).any (fun r => r.key == "k") = true ∧
    ((TP.set [⟨"k", "v", some 7⟩] "k" "w").map fun r => (r.key, r.expiry))
      = ([⟨"k", "v", some 7⟩] : List StrRow).map (fun r => (r.key, r.expiry)) :=
  ⟨by decide, (C8_typepersist_set_preserves_expiry [⟨"k", "v", some 7⟩] "k" "w" (by decide)).1⟩

/-- C2 counterexample: `LPUSH k a` then `SET k v` — the claim requires the
`SET` to fail WRONGTYPE, but it replies `"OK"` (the sqlite-variant `set`
performs no cross-store check) and afterwards the key has rows in both the
string store and the list store. -/
theorem C2_cex_set_ignores_list_rows :
    ((((mkEngine Store.empty).lpush 0 "k" ["a"]).2.set "k" "v").1 = .ok "OK") ∧
    ((((mkEngine Store.empty).lpush 0 "k" ["a"]).2.set "k" "v").2.storeOf.strings.any
      (fun r => r.key == "k") = true) ∧
    ((((mkEngine Store.empty).lpush 0 "k" ["a"]).2.set "k" "v").2.storeOf.lists.any
      (fun r => r.key == "k") = true) := ⟨rfl, rfl, rfl⟩

/-- C2 amended: only the checked direction holds.  `lpush`, `rpush`, `sadd`
and `hget` on a key holding a live string fail WRONGTYPE and leave the engine
unchanged; `set` itself performs no cross-store check, so type exclusivity can
be violated in the string direction. -/
theorem C2_wrongtype_checked_ops (e : Engine) (c : Conn) (now : Nat) (k f : String)
    (vs ms : List String) (hdb : e.db = some c)
    (h : c.store.stringLive k now = true) :
    e.lpush now k vs = (.error .wrongtype, e) ∧
    e.rpush now k vs = (.error .wrongtype, e) ∧
    e.sadd now k ms = (.error .wrongtype, e) ∧
    e.hget now k f = (.error .wrongtype, e) := by
  refine ⟨?_, ?_, ?_, ?_⟩ <;> simp [Engine.lpush, Engine.rpush, Engine.sadd, Engine.hget, hdb, h]

/-- Witness for C2 amended at a concrete input. -/
theorem C2_wrongtype_checked_ops_witness :
    ((⟨[⟨"k", "v", none⟩], [], [], []⟩ : Store).stringLive "k" 0 = true) ∧
    (mkEngine ⟨[⟨"k", "v", none⟩], [], [], []⟩).lpush 0 "k" ["a"]
      = (.error .wrongtype, mkEngine ⟨[⟨"k", "v", none⟩], [], [], []⟩) :=
  ⟨by decide,
   (C2_wrongtype_checked_ops (mkEngine ⟨[⟨"k", "v", none⟩], [], [], []⟩)
     ⟨⟨[⟨"k", "v", none⟩], [], [], []⟩, false, ⟨[⟨"k", "v", none⟩], [], [], []⟩⟩
     0 "k" "f" ["a"] ["m"] rfl (by decide)).1⟩

/-- C7 counterexample: `SET k v` (no expiry) then `TTL k` replies `-2`,
although the key exists with no expiry, for which the claim requires `-1`:
the `ttl` scan only looks at rows with `expiry IS NOT NULL`. -/
theorem C7_cex_ttl_no_expiry_key :
    ((((mkEngine Store.empty).set "k" "v").2.ttl 0 "k").1 = .ok (-2)) ∧
    ((-2 : Int) ≠ -1) := ⟨rfl, by decide⟩

/-- C7 amended: `ttl` replies the remaining seconds rounded up when the first
row of the key found with a non-NULL expiry is still in the future; it replies
`-1` when that expiry has already passed; and it replies `-2` when the key has
no row with a non-NULL expiry at all — which covers both a key that does not
exist and a key that exists with no expiry. -/
theorem C7_ttl_characterization (e : Engine) (c : Conn) (now : Nat) (k : String)
    (hdb : e.db = some c) :
    (c.store.ttlLookup k = none → (e.ttl now k).1 = .ok (-2)) ∧
    (∀ t, c.store.ttlLookup k = some t → now < t →
      (e.ttl now k).1 = .ok (ceilDiv1000 ((t : Int) - (now : Int))) ∧
      0 < ceilDiv1000 ((t : Int) - (now : Int))) ∧
    (∀ t, c.store.ttlLookup k = some t → t ≤ now → (e.ttl now k).1 = .ok (-1)) := by
  refine ⟨fun hn => ?_, fun t ht hfut => ?_, fun t ht hpast => ?_⟩
  · simp [Engine.ttl, hdb, hn]
  · have hpos : 0 < ceilDiv1000 ((t : Int) - (now : Int)) := by
      unfold ceilDiv1000
      rw [Int.fdiv_eq_ediv _ (by norm_num)]
      omega
    exact ⟨by simp [Engine.ttl, hdb, ht, hpos], hpos⟩
  · have hle : ¬ 0 < ceilDiv1000 ((t : Int) - (now : Int)) := by
      unfold ceilDiv1000
      rw [Int.fdiv_eq_ediv _ (by norm_num)]
      omega
    simp [Engine.ttl, hdb, ht, hle]

/-- Witness for C7 amended at a concrete input (expiry 1500 ms, now 5 ms:
remaining 1495 ms rounds up to 2 s). -/
theorem C7_ttl_characterization_witness :
    ((⟨[⟨"k", "v", some 1500⟩], [], [], []⟩ : Store).ttlLookup "k" = some 1500) ∧
    (5 < 1500) ∧
    ((mkEngine ⟨[⟨"k", "v", some 1500⟩], [], [], []⟩).ttl 5 "k").1 = .ok 2 := by
  refine ⟨by decide, by decide, ?_⟩
  have h := (C7_ttl_characterization (mkEngine ⟨[⟨"k", "v", some 1500⟩], [], [], []⟩)
    ⟨⟨[⟨"k", "v", some 1500⟩], [], [], []⟩, false, ⟨[⟨"k", "v", some 1500⟩], [], [], []⟩⟩
    5 "k" rfl).2.1 1500 (by decide) (by decide)
  rw [h.1]
  rfl

/-!  No engine method touches the `blockingOperations` registry: the waiter
list is preserved by every command.  One lemma per method, then the claim. -/

theorem waiters_guardedCatch (e : Engine) (err : RErr) :
    ((Engine.guardedCatch e err : Except RErr α × Engine)).2.waiters = e.waiters := by
  unfold Engine.guardedCatch
  (repeat' split) <;> rfl

theorem waiters_set (e : Engine) (k v : String) : (e.set k v).2.waiters = e.waiters := by
  unfold Engine.set; (repeat' split) <;> rfl

theorem waiters_get (e : Engine) (now : Nat) (k : String) :
    (e.get now k).2.waiters = e.waiters := by
  unfold Engine.get; (repeat' split) <;> rfl

theorem waiters_lpush (e : Engine) (now : Nat) (k : String) (vs : List String) :
    (e.lpush now k vs).2.waiters = e.waiters := by
  unfold Engine.lpush
  dsimp only
  (repeat' split) <;> first | rfl | (rw [waiters_guardedCatch])

theorem waiters_rpush (e : Engine) (now : Nat) (k : String) (vs : List String) :
    (e.rpush now k vs).2.waiters = e.waiters := by
  unfold Engine.rpush
  dsimp only
  (repeat' split) <;> first | rfl | (rw [waiters_guardedCatch])

theorem waiters_lpop (e : Engine) (k : String) : (e.lpop k).2.waiters = e.waiters := by
  unfold Engine.lpop
  dsimp only
  (repeat' split) <;> first | rfl | (rw [waiters_guardedCatch])

theorem waiters_rpop (e : Engine) (k : String) (b : Bool) :
    (e.rpop k b).2.waiters = e.waiters := by
  unfold Engine.rpop
  dsimp only
  (repeat' split) <;> rfl

theorem waiters_lrange (e : Engine) (k : String) (a b : Int) :
    (e.lrange k a b).2.waiters = e.waiters := by
  unfold Engine.lrange
  dsimp only
  (repeat' split) <;> rfl

theorem waitersEqRpop {e e1 : Engine} {k : String} {b : Bool}
    {r : Except RErr (Option String)} (h : e.rpop k b = (r, e1)) :
    e1.waiters = e.waiters := by
  have h2 := waiters_rpop e k b
  rw [h] at h2
  exact h2

theorem waitersEqLpush {e e1 : Engine} {now : Nat} {k : String} {vs : List String}
    {r : Except RErr Nat} (h : e.lpush now k vs = (r, e1)) :
    e1.waiters = e.waiters := by
  have h2 := waiters_lpush e now k vs
  rw [h] at h2
  exact h2

theorem waiters_rpoplpush (e : Engine) (now : Nat) (s d : String) :
    (e.rpoplpush now s d).2.waiters = e.waiters := by
  unfold Engine.rpoplpush
  dsimp only
  (repeat' split) <;>
    (repeat
      first
      | rfl
      | (dsimp only)
      | (rw [waiters_guardedCatch])
      | (apply Eq.trans (waitersEqRpop (by assumption)))
      | (apply Eq.trans (waitersEqLpush (by assumption))))

theorem waiters_hset (e : Engine) (k f v : String) : (e.hset k f v).2.waiters = e.waiters := by
  unfold Engine.hset; (repeat' split) <;> rfl

theorem waiters_hmset (e : Engine) (k : String) (fvs : List String) :
    (e.hmset k fvs).2.waiters = e.waiters := by
  unfold Engine.hmset
  dsimp only
  (repeat' split) <;> rfl

theorem waiters_hget (e : Engine) (now : Nat) (k f : String) :
    (e.hget now k f).2.waiters = e.waiters := by
  unfold Engine.hget; (repeat' split) <;> rfl

theorem waiters_hdel (e : Engine) (k : String) (fs : List String) :
    (e.hdel k fs).2.waiters = e.waiters := by
  unfold Engine.hdel; (repeat' split) <;> rfl

theorem waiters_hmget (e : Engine) (now : Nat) (k : String) (fs : List String) :
    (e.hmget now k fs).2.waiters = e.waiters := by
  unfold Engine.hmget; (repeat' split) <;> rfl

theorem waiters_sadd (e : Engine) (now : Nat) (k : String) (ms : List String) :
    (e.sadd now k ms).2.waiters = e.waiters := by
  unfold Engine.sadd
  dsimp only
  (repeat' split) <;> first | rfl | (rw [waiters_guardedCatch])

theorem waiters_srem (e : Engine) (k : String) (ms : List String) :
    (e.srem k ms).2.waiters = e.waiters := by
  unfold Engine.srem; (repeat' split) <;> rfl

theorem waiters_sismember (e : Engine) (now : Nat) (k m : String) :
    (e.sismember now k m).2.waiters = e.waiters := by
  unfold Engine.sismember; (repeat' split) <;> rfl

theorem waiters_smembers (e : Engine) (now : Nat) (k : String) :
    (e.smembers now k).2.waiters = e.waiters := by
  unfold Engine.smembers; (repeat' split) <;> rfl

theorem waiters_del (e : Engine) (ks : List String) : (e.del ks).2.waiters = e.waiters := by
  unfold Engine.del
  dsimp only
  (repeat' split) <;> rfl

theorem waiters_expire (e : Engine) (now : Nat) (k : String) (s : Nat) :
    (e.expire now k s).2.waiters = e.waiters := by
  unfold Engine.expire; (repeat' split) <;> rfl

theorem waiters_ttl (e : Engine) (now : Nat) (k : String) :
    (e.ttl now k).2.waiters = e.waiters := by
  unfold Engine.ttl
  dsimp only
  (repeat' split) <;> rfl

theorem waiters_flushdb (e : Engine) : (e.flushdb).2.waiters = e.waiters := by
  unfold Engine.flushdb
  dsimp only
  (repeat' split) <;> rfl

/-- C9: no engine write operation ever signals a registered BRPOPLPUSH waiter.
Dispatching any command — LPUSH, RPUSH, RPOPLPUSH and all the others — leaves
the waiter registry untouched, and the only transition that completes a
registered blocked call is its timeout timer, which removes the waiter and
resolves the call with nil. -/
theorem C9_waiters_never_signalled (e : Engine) (now : Nat) (c : Cmd)
    (src : String) (id : Nat) :
    ((e.dispatch now c).2.waiters = e.waiters) ∧
    (e.brpoplpushTimeout src id).1 = none ∧
    (e.brpoplpushTimeout src id).2.waiters = removeFirstWaiter e.waiters (src, id) := by
  refine ⟨?_, rfl, rfl⟩
  cases c <;>
    simp [Engine.dispatch, waiters_set, waiters_get, waiters_lpush, waiters_rpush,
      waiters_lpop, waiters_rpop, waiters_lrange, waiters_rpoplpush, waiters_hset,
      waiters_hmset, waiters_hget, waiters_hdel, waiters_hmget, waiters_sadd,
      waiters_srem, waiters_sismember, waiters_smembers, waiters_del,
      waiters_expire, waiters_ttl, waiters_flushdb]

/-!  Per-command transition lemmas under flag/connection agreement.  -/

theorem stepOf_set (e : Engine) (c : Conn) (now : Nat) (k v : String)
    (hdb : e.db = some c) (hsync : e.inTransaction = c.txnOpen) :
    SafeStepOut e c (stepT c.store now (.set k v)) (e.set k v).2 := by
  obtain ⟨db, tx, mode, bufc, ws, exp⟩ := e
  dsimp only at hdb hsync
  subst hdb; subst hsync
  exact ⟨{ c with store := c.store.insertOrReplaceString k v }, rfl, rfl, fun h => h⟩

theorem stepOf_get (e : Engine) (c : Conn) (now : Nat) (k : String)
    (hdb : e.db = some c) (hsync : e.inTransaction = c.txnOpen) :
    SafeStepOut e c (stepT c.store now (.get k)) (e.get now k).2 := by
  obtain ⟨db, tx, mode, bufc, ws, exp⟩ := e
  dsimp only at hdb hsync
  subst hdb; subst hsync
  exact ⟨c, rfl, rfl, fun h => h⟩

theorem stepOf_lrange (e : Engine) (c : Conn) (now : Nat) (k : String) (a b : Int)
    (hdb : e.db = some c) (hsync : e.inTransaction = c.txnOpen) :
    SafeStepOut e c (stepT c.store now (.lrange k a b)) (e.lrange k a b).2 := by
  obtain ⟨db, tx, mode, bufc, ws, exp⟩ := e
  dsimp only at hdb hsync
  subst hdb; subst hsync
  refine ⟨c, ?_, rfl, fun h => h⟩
  unfold Engine.lrange
  dsimp only
  (repeat' split) <;> rfl

theorem stepOf_hget (e : Engine) (c : Conn) (now : Nat) (k f : String)
    (hdb : e.db = some c) (hsync : e.inTransaction = c.txnOpen) :
    SafeStepOut e c (stepT c.store now (.hget k f)) (e.hget now k f).2 := by
  obtain ⟨db, tx, mode, bufc, ws, exp⟩ := e
  dsimp only at hdb hsync
  subst hdb; subst hsync
  refine ⟨c, ?_, rfl, fun h => h⟩
  unfold Engine.hget
  dsimp only
  (repeat' split) <;> rfl

theorem stepOf_hmget (e : Engine) (c : Conn) (now : Nat) (k : String) (fs : List String)
    (hdb : e.db = some c) (hsync : e.inTransaction = c.txnOpen) :
    SafeStepOut e c (stepT c.store now (.hmget k fs)) (e.hmget now k fs).2 := by
  obtain ⟨db, tx, mode, bufc, ws, exp⟩ := e
  dsimp only at hdb hsync
  subst hdb; subst hsync
  exact ⟨c, rfl, rfl, fun h => h⟩

theorem stepOf_sismember (e : Engine) (c : Conn) (now : Nat) (k m : String)
    (hdb : e.db = some c) (hsync : e.inTransaction = c.txnOpen) :
    SafeStepOut e c (stepT c.store now (.sismember k m)) (e.sismember now k m).2 := by
  obtain ⟨db, tx, mode, bufc, ws, exp⟩ := e
  dsimp only at hdb hsync
  subst hdb; subst hsync
  exact ⟨c, rfl, rfl, fun h => h⟩

theorem stepOf_smembers (e : Engine) (c : Conn) (now : Nat) (k : String)
    (hdb : e.db = some c) (hsync : e.inTransaction = c.txnOpen) :
    SafeStepOut e c (stepT c.store now (.smembers k)) (e.smembers now k).2 := by
  obtain ⟨db, tx, mode, bufc, ws, exp⟩ := e
  dsimp only at hdb hsync
  subst hdb; subst hsync
  exact ⟨c, rfl, rfl, fun h => h⟩

theorem stepOf_ttl (e : Engine) (c : Conn) (now : Nat) (k : String)
    (hdb : e.db = some c) (hsync : e.inTransaction = c.txnOpen) :
    SafeStepOut e c (stepT c.store now (.ttl k)) (e.ttl now k).2 := by
  obtain ⟨db, tx, mode, bufc, ws, exp⟩ := e
  dsimp only at hdb hsync
  subst hdb; subst hsync
  refine ⟨c, ?_, rfl, fun h => h⟩
  unfold Engine.ttl
  dsimp only
  (repeat' split) <;> rfl

theorem stepOf_hdel (e : Engine) (c : Conn) (now : Nat) (k : String) (fs : List String)
    (hdb : e.db = some c) (hsync : e.inTransaction = c.txnOpen) :
    SafeStepOut e c (stepT c.store now (.hdel k fs)) (e.hdel k fs).2 := by
  obtain ⟨db, tx, mode, bufc, ws, exp⟩ := e
  dsimp only at hdb hsync
  subst hdb; subst hsync
  refine ⟨{ c with store := stepT c.store now (.hdel k fs) }, ?_, rfl, fun h => h⟩
  unfold Engine.hdel stepT
  dsimp only
  by_cases hfs : fs.isEmpty = true <;> simp only [hfs, if_true, if_false] <;> rfl

theorem stepOf_srem (e : Engine) (c : Conn) (now : Nat) (k : String) (ms : List String)
    (hdb : e.db = some c) (hsync : e.inTransaction = c.txnOpen) :
    SafeStepOut e c (stepT c.store now (.srem k ms)) (e.srem k ms).2 := by
  obtain ⟨db, tx, mode, bufc, ws, exp⟩ := e
  dsimp only at hdb hsync
  subst hdb; subst hsync
  refine ⟨{ c with store := stepT c.store now (.srem k ms) }, ?_, rfl, fun h => h⟩
  unfold Engine.srem stepT
  dsimp only
  by_cases hms : ms.isEmpty = true <;> simp only [hms, if_true, if_false] <;> rfl

theorem stepOf_expire (e : Engine) (c : Conn) (now : Nat) (k : String) (s : Nat)
    (hdb : e.db = some c) (hsync : e.inTransaction = c.txnOpen) :
    SafeStepOut e c (stepT c.store now (.expire k s)) (e.expire now k s).2 := by
  obtain ⟨db, tx, mode, bufc, ws, exp⟩ := e
  dsimp only at hdb hsync
  subst hdb; subst hsync
  exact ⟨{ c with store := stepT c.store now (.expire k s) }, rfl, rfl, fun h => h⟩

theorem stepOf_lpush (e : Engine) (c : Conn) (now : Nat) (k : String) (vs : List String)
    (hdb : e.db = some c) (hsync : e.inTransaction = c.txnOpen) :
    SafeStepOut e c (stepT c.store now (.lpush k vs)) (e.lpush now k vs).2 := by
  obtain ⟨db, tx, mode, bufc, ws, exp⟩ := e
  obtain ⟨st0, topen, snap⟩ := c
  dsimp only at hdb hsync
  subst hdb; subst hsync
  unfold Engine.lpush
  dsimp only
  by_cases hstr : st0.stringLive k now = true
  · refine ⟨⟨st0, tx, snap⟩, ?_, ?_, fun h => h⟩
    · simp only [hstr, if_true]
    · simp only [stepT, hstr, if_true]
  · simp only [stepT, hstr, if_false, Bool.false_eq_true]
    rcases hins : insertSeq (st0.shiftList k (vs.length : Int)) k 0 vs.reverse with ⟨st2, oe⟩
    cases tx
    · cases mode
      · simp only [Conn.beginTxn, Bool.not_false, Bool.and_self, if_true, Bool.false_eq_true,
          if_false, Bool.false_or, Bool.not_true, Bool.false_and, Bool.true_and, Bool.and_false]
        rw [hins]
        cases oe <;> exact ⟨⟨st2, true, st0⟩, rfl, rfl, fun _ => rfl⟩
      · simp only [Conn.beginTxn, Bool.not_false, Bool.and_self, if_true, Bool.false_eq_true,
          if_false, Bool.false_or, Bool.not_true, Bool.false_and, Bool.true_and, Bool.and_false]
        rw [hins]
        cases oe <;> exact ⟨⟨st2, false, snap⟩, rfl, rfl, fun h => h⟩
    · simp only [Conn.beginTxn, Bool.not_false, Bool.and_self, if_true, Bool.false_eq_true,
        if_false, Bool.false_or, Bool.not_true, Bool.false_and, Bool.true_and, Bool.and_false,
        Bool.true_or, Bool.or_true, Bool.not_eq_true]
      rw [hins]
      cases oe <;> exact ⟨⟨st2, true, snap⟩, rfl, rfl, fun _ => rfl⟩

theorem stepOf_rpush (e : Engine) (c : Conn) (now : Nat) (k : String) (vs : List String)
    (hdb : e.db = some c) (hsync : e.inTransaction = c.txnOpen) :
    SafeStepOut e c (stepT c.store now (.rpush k vs)) (e.rpush now k vs).2 := by
  obtain ⟨db, tx, mode, bufc, ws, exp⟩ := e
  obtain ⟨st0, topen, snap⟩ := c
  dsimp only at hdb hsync
  subst hdb; subst hsync
  unfold Engine.rpush
  dsimp only
  by_cases hstr : st0.stringLive k now = true
  · refine ⟨⟨st0, tx, snap⟩, ?_, ?_, fun h => h⟩
    · simp only [hstr, if_true]
    · simp only [stepT, hstr, if_true]
  · simp only [stepT, hstr, if_false, Bool.false_eq_true]
    rcases hins : insertSeq st0 k (st0.listCount k : Int) vs with ⟨st2, oe⟩
    cases tx
    · cases mode
      · simp only [Conn.beginTxn, Bool.not_false, Bool.and_self, if_true, Bool.false_eq_true,
          if_false, Bool.false_or, Bool.not_true, Bool.false_and, Bool.true_and, Bool.and_false]
        rw [hins]
        cases oe <;> exact ⟨⟨st2, true, st0⟩, rfl, rfl, fun _ => rfl⟩
      · simp only [Conn.beginTxn, Bool.not_false, Bool.and_self, if_true, Bool.false_eq_true,
          if_false, Bool.false_or, Bool.not_true, Bool.false_and, Bool.true_and, Bool.and_false]
        rw [hins]
        cases oe <;> exact ⟨⟨st2, false, snap⟩, rfl, rfl, fun h => h⟩
    · simp only [Conn.beginTxn, Bool.not_false, Bool.and_self, if_true, Bool.false_eq_true,
        if_false, Bool.false_or, Bool.not_true, Bool.false_and, Bool.true_and, Bool.and_false,
        Bool.true_or, Bool.or_true, Bool.not_eq_true]
      rw [hins]
      cases oe <;> exact ⟨⟨st2, true, snap⟩, rfl, rfl, fun _ => rfl⟩

theorem stepOf_lpop (e : Engine) (c : Conn) (now : Nat) (k : String)
    (hdb : e.db = some c) (hsync : e.inTransaction = c.txnOpen) :
    SafeStepOut e c (stepT c.store now (.lpop k)) (e.lpop k).2 := by
  obtain ⟨db, tx, mode, bufc, ws, exp⟩ := e
  obtain ⟨st0, topen, snap⟩ := c
  dsimp only at hdb hsync
  subst hdb; subst hsync
  unfold Engine.lpop
  dsimp only
  rcases hmin : st0.minListRow k with _ | r
  · refine ⟨⟨st0, tx, snap⟩, rfl, ?_, fun h => h⟩
    simp only [stepT, hmin]
  · simp only [stepT, hmin]
    cases tx
    · cases mode
      · simp only [Conn.beginTxn, Bool.not_false, Bool.and_self, if_true, Bool.false_eq_true,
          if_false, Bool.false_or, Bool.not_true, Bool.false_and, Bool.true_and, Bool.and_false]
        exact ⟨⟨(st0.deleteListIdx k 0).decList k, true, st0⟩, rfl, rfl, fun _ => rfl⟩
      · simp only [Conn.beginTxn, Bool.not_false, Bool.and_self, if_true, Bool.false_eq_true,
          if_false, Bool.false_or, Bool.not_true, Bool.false_and, Bool.true_and, Bool.and_false]
        exact ⟨⟨(st0.deleteListIdx k 0).decList k, false, snap⟩, rfl, rfl, fun h => h⟩
    · simp only [Conn.beginTxn, Bool.not_false, Bool.and_self, if_true, Bool.false_eq_true,
        if_false, Bool.false_or, Bool.not_true, Bool.false_and, Bool.true_and, Bool.and_false,
        Bool.true_or, Bool.or_true, Bool.not_eq_true]
      exact ⟨⟨(st0.deleteListIdx k 0).decList k, true, snap⟩, rfl, rfl, fun _ => rfl⟩

theorem stepOf_sadd (e : Engine) (c : Conn) (now : Nat) (k : String) (ms : List String)
    (hdb : e.db = some c) (hsync : e.inTransaction = c.txnOpen) :
    SafeStepOut e c (stepT c.store now (.sadd k ms)) (e.sadd now k ms).2 := by
  obtain ⟨db, tx, mode, bufc, ws, exp⟩ := e
  obtain ⟨st0, topen, snap⟩ := c
  dsimp only at hdb hsync
  subst hdb; subst hsync
  unfold Engine.sadd
  dsimp only
  by_cases hstr : st0.stringLive k now = true
  · refine ⟨⟨st0, tx, snap⟩, ?_, ?_, fun h => h⟩
    · simp only [hstr, if_true]
    · simp only [stepT, hstr, if_true]
  · simp only [stepT, hstr, if_false, Bool.false_eq_true]
    cases tx
    · cases mode
      · simp only [Conn.beginTxn, Bool.not_false, Bool.and_self, if_true, Bool.false_eq_true,
          if_false, Bool.false_or, Bool.not_true, Bool.false_and, Bool.true_and, Bool.and_false]
        exact ⟨⟨(saddLoop st0 k ms).1, true, st0⟩, rfl, rfl, fun _ => rfl⟩
      · simp only [Conn.beginTxn, Bool.not_false, Bool.and_self, if_true, Bool.false_eq_true,
          if_false, Bool.false_or, Bool.not_true, Bool.false_and, Bool.true_and, Bool.and_false]
        exact ⟨⟨(saddLoop st0 k ms).1, false, snap⟩, rfl, rfl, fun h => h⟩
    · simp only [Conn.beginTxn, Bool.not_false, Bool.and_self, if_true, Bool.false_eq_true,
        if_false, Bool.false_or, Bool.not_true, Bool.false_and, Bool.true_and, Bool.and_false,
        Bool.true_or, Bool.or_true, Bool.not_eq_true]
      exact ⟨⟨(saddLoop st0 k ms).1, true, snap⟩, rfl, rfl, fun _ => rfl⟩

theorem stepOf_rpop (e : Engine) (c : Conn) (k : String)
    (hdb : e.db = some c) (hsync : e.inTransaction = c.txnOpen) :
    ∃ c1 : Conn,
      (e.rpop k false).2 = { e with db := some c1, inTransaction := c1.txnOpen } ∧
      c1.store = (match c.store.maxListRow k with
        | none => c.store
        | some r => if c.txnOpen then c.store else c.store.deleteListIdx k r.idx) := by
  obtain ⟨db, tx, mode, bufc, ws, exp⟩ := e
  obtain ⟨st0, topen, snap⟩ := c
  dsimp only at hdb hsync
  subst hdb; subst hsync
  unfold Engine.rpop
  dsimp only
  rcases hmax : st0.maxListRow k with _ | r
  · exact ⟨⟨st0, tx, snap⟩, rfl, rfl⟩
  · cases tx
    · simp only [Conn.beginTxn, Conn.commitTxn, Bool.not_false, if_true, Bool.false_eq_true,
        if_false]
      exact ⟨⟨st0.deleteListIdx k r.idx, false, st0⟩, rfl, rfl⟩
    · simp only [Conn.beginTxn, Bool.not_false, if_true, Bool.false_eq_true, if_false]
      exact ⟨⟨st0, true, snap⟩, rfl, rfl⟩

theorem rpopTrue (e : Engine) (c : Conn) (k : String) (hdb : e.db = some c) :
    e.rpop k true = (match c.store.maxListRow k with
      | none => (.ok none, e)
      | some r =>
        (.ok (some r.value),
         { e with db := some { c with store := c.store.deleteListIdx k r.idx } })) := by
  unfold Engine.rpop
  rw [hdb]
  dsimp only
  rcases hmax : c.store.maxListRow k with _ | r
  · rfl
  · simp only [Bool.not_true, Bool.false_eq_true, if_false, Bool.or_false]

theorem stepOf_rpoplpush (e : Engine) (c : Conn) (now : Nat) (src dst : String)
    (hdb : e.db = some c) (hsync : e.inTransaction = c.txnOpen) :
    SafeStepOut e c (stepT c.store now (.rpoplpush src dst)) (e.rpoplpush now src dst).2 := by
  obtain ⟨db, tx, mode, bufc, ws, exp⟩ := e
  obtain ⟨st0, topen, snap⟩ := c
  dsimp only at hdb hsync
  subst hdb; subst hsync
  unfold Engine.rpoplpush
  dsimp only
  cases tx
  · cases mode
    · simp only [Conn.beginTxn, Bool.not_false, Bool.and_self, if_true, Bool.false_eq_true,
        if_false, Bool.false_or, Bool.not_true, Bool.false_and, Bool.true_and, Bool.and_false]
      rw [rpopTrue _ ⟨st0, true, st0⟩ src rfl]
      rcases hmax : st0.maxListRow src with _ | r
      · exact ⟨⟨st0, true, st0⟩, rfl, by simp only [stepT, hmax], fun _ => rfl⟩
      · dsimp only
        obtain ⟨c3, he3, hst3, hmono⟩ :=
          stepOf_lpush
            { db := some ⟨st0.deleteListIdx src r.idx, true, st0⟩, inTransaction := true,
              transactionMode := false, transactionCommands := bufc, waiters := ws,
              expiryCheckerId := exp }
            ⟨st0.deleteListIdx src r.idx, true, st0⟩ now dst [r.value] rfl rfl
        have hc3 : c3.txnOpen = true := hmono rfl
        rcases hlp : Engine.lpush
            { db := some ⟨st0.deleteListIdx src r.idx, true, st0⟩, inTransaction := true,
              transactionMode := false, transactionCommands := bufc, waiters := ws,
              expiryCheckerId := exp } now dst [r.value] with ⟨res, e3⟩
        rw [hlp] at he3
        dsimp only at he3
        subst he3
        cases res <;>
          simp only [Engine.guardedCatch, hc3, Bool.not_true, Bool.false_and, Bool.and_false,
            Bool.false_eq_true, if_false] <;>
          exact ⟨c3, by rw [hc3], by simpa only [stepT, hmax] using hst3, fun _ => hc3⟩
    · simp only [Conn.beginTxn, Bool.not_false, Bool.not_true, Bool.and_false, Bool.and_self,
        if_true, Bool.false_eq_true, if_false, Bool.false_or]
      rw [rpopTrue _ ⟨st0, false, snap⟩ src rfl]
      rcases hmax : st0.maxListRow src with _ | r
      · exact ⟨⟨st0, false, snap⟩, rfl, by simp only [stepT, hmax], fun h => h⟩
      · dsimp only
        obtain ⟨c3, he3, hst3, hmono⟩ :=
          stepOf_lpush
            { db := some ⟨st0.deleteListIdx src r.idx, false, snap⟩, inTransaction := false,
              transactionMode := true, transactionCommands := bufc, waiters := ws,
              expiryCheckerId := exp }
            ⟨st0.deleteListIdx src r.idx, false, snap⟩ now dst [r.value] rfl rfl
        rcases hlp : Engine.lpush
            { db := some ⟨st0.deleteListIdx src r.idx, false, snap⟩, inTransaction := false,
              transactionMode := true, transactionCommands := bufc, waiters := ws,
              expiryCheckerId := exp } now dst [r.value] with ⟨res, e3⟩
        rw [hlp] at he3
        dsimp only at he3
        subst he3
        cases res <;>
          simp only [Engine.guardedCatch, Bool.not_true, Bool.false_and, Bool.and_false,
            Bool.false_eq_true, if_false] <;>
          exact ⟨c3, rfl, by simpa only [stepT, hmax] using hst3,
            fun h => absurd h Bool.false_ne_true⟩
  · simp only [Conn.beginTxn, Bool.not_true, Bool.false_and, Bool.and_false, if_true,
      Bool.false_eq_true, if_false, Bool.true_or, Bool.or_false]
    rw [rpopTrue _ ⟨st0, true, snap⟩ src rfl]
    rcases hmax : st0.maxListRow src with _ | r
    · exact ⟨⟨st0, true, snap⟩, rfl, by simp only [stepT, hmax], fun _ => rfl⟩
    · dsimp only
      obtain ⟨c3, he3, hst3, hmono⟩ :=
        stepOf_lpush
          { db := some ⟨st0.deleteListIdx src r.idx, true, snap⟩, inTransaction := true,
            transactionMode := mode, transactionCommands := bufc, waiters := ws,
            expiryCheckerId := exp }
          ⟨st0.deleteListIdx src r.idx, true, snap⟩ now dst [r.value] rfl rfl
      have hc3 : c3.txnOpen = true := hmono rfl
      rcases hlp : Engine.lpush
          { db := some ⟨st0.deleteListIdx src r.idx, true, snap⟩, inTransaction := true,
            transactionMode := mode, transactionCommands := bufc, waiters := ws,
            expiryCheckerId := exp } now dst [r.value] with ⟨res, e3⟩
      rw [hlp] at he3
      dsimp only at he3
      subst he3
      cases res <;>
        simp only [Engine.guardedCatch, hc3, Bool.not_true, Bool.false_and, Bool.and_false,
          Bool.false_eq_true, if_false] <;>
        exact ⟨c3, by rw [hc3], by simpa only [stepT, hmax] using hst3, fun _ => hc3⟩

/-- Dispatching any `execSafe` command transforms the engine exactly by its
in-transaction store effect. -/
theorem safeDispatch (e : Engine) (c : Conn) (now : Nat) (cmd : Cmd)
    (hdb : e.db = some c) (hsync : e.inTransaction = c.txnOpen)
    (hsafe : execSafe cmd = true) :
    SafeStepOut e c (stepT c.store now cmd) (e.dispatch now cmd).2 := by
  cases cmd with
  | set k v => exact stepOf_set e c now k v hdb hsync
  | get k => exact stepOf_get e c now k hdb hsync
  | lpush k vs => exact stepOf_lpush e c now k vs hdb hsync
  | rpush k vs => exact stepOf_rpush e c now k vs hdb hsync
  | lpop k => exact stepOf_lpop e c now k hdb hsync
  | rpop k => exact absurd hsafe Bool.false_ne_true
  | lrange k a b => exact stepOf_lrange e c now k a b hdb hsync
  | rpoplpush src dst => exact stepOf_rpoplpush e c now src dst hdb hsync
  | hset k f v => exact absurd hsafe Bool.false_ne_true
  | hmset k fvs => exact absurd hsafe Bool.false_ne_true
  | hget k f => exact stepOf_hget e c now k f hdb hsync
  | hdel k fs => exact stepOf_hdel e c now k fs hdb hsync
  | hmget k fs => exact stepOf_hmget e c now k fs hdb hsync
  | sadd k ms => exact stepOf_sadd e c now k ms hdb hsync
  | srem k ms => exact stepOf_srem e c now k ms hdb hsync
  | sismember k m => exact stepOf_sismember e c now k m hdb hsync
  | smembers k => exact stepOf_smembers e c now k hdb hsync
  | del ks => exact absurd hsafe Bool.false_ne_true
  | expire k sec => exact stepOf_expire e c now k sec hdb hsync
  | ttl k => exact stepOf_ttl e c now k hdb hsync
  | flushdb => exact absurd hsafe Bool.false_ne_true

/-- An `execSafe` command that triggers the `exec` pre-check leaves the store
unchanged (among the safe commands only `hget` is pre-checked, and it is a
read). -/
theorem stepT_of_pre (x : Cmd) (st : Store) (now : Nat) (hx : execSafe x = true)
    (hpre : execPre st now x = true) : stepT st now x = st := by
  cases x <;>
    first
    | rfl
    | exact absurd hpre Bool.false_ne_true
    | exact absurd hx Bool.false_ne_true

/-- The store effect of the `exec` loop over `execSafe` commands is the fold
of the per-command in-transaction effects, and the loop keeps the connection
flags in sync. -/
theorem execLoop_safe (now : Nat) (cmds : List Cmd) :
    ∀ (e : Engine) (c : Conn), e.db = some c → e.inTransaction = c.txnOpen →
      (∀ x ∈ cmds, execSafe x = true) →
      ∃ c1 : Conn,
        (e.execLoop now cmds).2 = { e with db := some c1, inTransaction := c1.txnOpen } ∧
        c1.store = foldStepT c.store now cmds ∧
        (c.txnOpen = true → c1.txnOpen = true) := by
  induction cmds with
  | nil =>
    intro e c hdb hsync _
    obtain ⟨db, tx, mode, bufc, ws, exp⟩ := e
    dsimp only at hdb hsync
    subst hdb; subst hsync
    exact ⟨c, rfl, rfl, fun h => h⟩
  | cons x xs ih =>
    intro e c hdb hsync hall
    have hx : execSafe x = true := hall x (by simp)
    have hxs : ∀ y ∈ xs, execSafe y = true := fun y hy => hall y (by simp [hy])
    simp only [Engine.execLoop]
    rw [hdb]
    dsimp only
    by_cases hpre : execPre c.store now x = true
    · rw [if_pos hpre]
      obtain ⟨c1, h1, h2, h3⟩ := ih e c hdb hsync hxs
      refine ⟨c1, h1, ?_, h3⟩
      rw [h2]
      show foldStepT c.store now xs = (xs.foldl (fun s c => stepT s now c) (stepT c.store now x))
      rw [stepT_of_pre x c.store now hx hpre]
      rfl
    · rw [if_neg hpre]
      obtain ⟨c1, he1, hst1, hmono⟩ := safeDispatch e c now x hdb hsync hx
      rcases hd : e.dispatch now x with ⟨res, e1⟩
      rw [hd] at he1
      dsimp only at he1
      subst he1
      have hrec := ih
        { e with db := some c1, inTransaction := c1.txnOpen } c1 rfl rfl hxs
      obtain ⟨c2, g1, g2, g3⟩ := hrec
      refine ⟨c2, ?_, ?_, fun h => g3 (hmono h)⟩
      · cases res <;> dsimp only <;> rw [g1]
      · rw [g2, hst1]
        rfl

/-- Issuing `execSafe` commands directly, one after another, folds the same
per-command store effects. -/
theorem runAll_safe (now : Nat) (cmds : List Cmd) :
    ∀ (e : Engine) (c : Conn), e.db = some c → e.inTransaction = c.txnOpen →
      (∀ x ∈ cmds, execSafe x = true) →
      ∃ c1 : Conn,
        Engine.runAll e now cmds = { e with db := some c1, inTransaction := c1.txnOpen } ∧
        c1.store = foldStepT c.store now cmds := by
  induction cmds with
  | nil =>
    intro e c hdb hsync _
    obtain ⟨db, tx, mode, bufc, ws, exp⟩ := e
    dsimp only at hdb hsync
    subst hdb; subst hsync
    exact ⟨c, rfl, rfl⟩
  | cons x xs ih =>
    intro e c hdb hsync hall
    have hx : execSafe x = true := hall x (by simp)
    have hxs : ∀ y ∈ xs, execSafe y = true := fun y hy => hall y (by simp [hy])
    simp only [Engine.runAll]
    obtain ⟨c1, he1, hst1, hmono⟩ := safeDispatch e c now x hdb hsync hx
    rw [he1]
    obtain ⟨c2, g1, g2⟩ := ih
      { e with db := some c1, inTransaction := c1.txnOpen } c1 rfl rfl hxs
    refine ⟨c2, by rw [g1], ?_⟩
    rw [g2, hst1]
    rfl

/-- Queueing commands through `addCommand` while in MULTI mode appends them to
the buffer. -/
theorem queueAll_mode (cmds : List Cmd) :
    ∀ (e : Engine), e.transactionMode = true →
      Engine.queueAll e cmds = { e with transactionCommands := e.transactionCommands ++ cmds } := by
  induction cmds with
  | nil =>
    intro e he
    obtain ⟨db, tx, mode, bufc, ws, exp⟩ := e
    dsimp only at he
    subst he
    simp [Engine.queueAll]
  | cons x xs ih =>
    intro e he
    obtain ⟨db, tx, mode, bufc, ws, exp⟩ := e
    dsimp only at he
    subst he
    simp only [Engine.queueAll, Engine.addCommand, Bool.not_true, Bool.false_eq_true,
      if_false]
    rw [ih _ rfl]
    simp

/-- C5 counterexample: buffering `SET k v; HMSET h f w` and running `EXEC`
does not produce the state of applying the two commands directly.  Inside
`EXEC`, `hmset` issues its own unconditional `BEGIN TRANSACTION`, which fails
with a nested-transaction error against the transaction `exec` opened, so the
hash write is dropped (it is recorded as that command's error slot), while
direct application performs it. -/
theorem C5_cex_hmset_in_exec :
    ((Engine.queueAll (mkEngine Store.empty).multi
        [Cmd.set "k" "v", Cmd.hmset "h" ["f", "w"]]).exec 0).2.storeOf
      ≠ (Engine.runAll (mkEngine Store.empty) 0
        [Cmd.set "k" "v", Cmd.hmset "h" ["f", "w"]]).storeOf := by decide

/-- C5 amended: for buffered sequences of commands that defer transaction
control to the enclosing transaction and whose WRONGTYPE checking agrees with
direct mode (SET, GET, LPUSH, RPUSH, LPOP, LRANGE, RPOPLPUSH, HGET, HDEL,
HMGET, SADD, SREM, SISMEMBER, SMEMBERS, EXPIRE, TTL — the `execSafe`
commands), MULTI/queue/EXEC yields the same final store state as applying the
commands in order directly.  HMSET, DEL, FLUSHDB and RPOP issue their own
`BEGIN`, and HSET is WRONGTYPE-pre-checked only inside `exec`, so they are
excluded. -/
theorem C5_exec_equiv_direct (now : Nat) (s0 : Store) (cmds : List Cmd)
    (hall : ∀ x ∈ cmds, execSafe x = true) :
    ((Engine.queueAll (mkEngine s0).multi cmds).exec now).2.storeOf
      = (Engine.runAll (mkEngine s0) now cmds).storeOf := by
  have hq : Engine.queueAll (mkEngine s0).multi cmds
      = { mkEngine s0 with transactionMode := true, transactionCommands := cmds } := by
    rw [queueAll_mode cmds (mkEngine s0).multi rfl]
    rfl
  rw [hq]
  unfold Engine.exec
  dsimp only [mkEngine]
  simp only [Conn.beginTxn, Bool.not_true, Bool.not_false, Bool.false_eq_true, if_false,
    if_true]
  obtain ⟨c1, hp, hst, hmono⟩ := execLoop_safe now cmds
    { db := some ⟨s0, true, s0⟩, inTransaction := true, transactionMode := true,
      transactionCommands := cmds, waiters := [], expiryCheckerId := some 0 }
    ⟨s0, true, s0⟩ rfl rfl hall
  rw [hp]
  dsimp only
  have hc1 : c1.txnOpen = true := hmono rfl
  simp only [Conn.commitTxn, hc1, if_true]
  obtain ⟨c2, hr, hst2⟩ := runAll_safe now cmds (mkEngine s0) ⟨s0, false, s0⟩ rfl rfl hall
  simp only [mkEngine] at hr
  rw [hr]
  dsimp only [Engine.storeOf]
  rw [hst, hst2]

/-- Witness for C5 amended at a concrete input. -/
theorem C5_exec_equiv_direct_witness :
    (∀ x ∈ [Cmd.lpush "l" ["a", "b"], Cmd.lpop "l", Cmd.sadd "s" ["x", "y"]],
      execSafe x = true) ∧
    ((Engine.queueAll (mkEngine Store.empty).multi
        [Cmd.lpush "l" ["a", "b"], Cmd.lpop "l", Cmd.sadd "s" ["x", "y"]]).exec 3).2.storeOf
      = (Engine.runAll (mkEngine Store.empty) 3
        [Cmd.lpush "l" ["a", "b"], Cmd.lpop "l", Cmd.sadd "s" ["x", "y"]]).storeOf :=
  ⟨by decide,
   C5_exec_equiv_direct 3 Store.empty
     [Cmd.lpush "l" ["a", "b"], Cmd.lpop "l", Cmd.sadd "s" ["x", "y"]] (by decide)⟩

/-!  List-store lemmas for the LPUSH characterization and the contiguity
invariant.  -/

theorem insertSeq_ok (k : String) :
    ∀ (l : List String) (st : Store) (start : Int),
      (∀ r ∈ st.lists, r.key = k → ∀ j : Nat, j < l.length → r.idx ≠ start + j) →
      insertSeq st k start l
        = ({ st with lists := st.lists ++ seqRows k start l }, none) := by
  intro l
  induction l with
  | nil =>
    intro st start _
    simp [insertSeq, seqRows]
  | cons v rest ih =>
    intro st start hno
    have hcond : st.lists.any (fun r => r.key == k && r.idx == start) = false := by
      rw [List.any_eq_false]
      intro r hr
      simp only [Bool.and_eq_true, beq_iff_eq, not_and]
      intro hk
      have := hno r hr hk 0 (by simp)
      simpa using this
    have hrec := ih { st with lists := st.lists ++ [⟨k, start, v, none⟩] } (start + 1) ?_
    · simp only [insertSeq, Store.insertListRow, hcond, Bool.false_eq_true, if_false]
      rw [hrec]
      simp [seqRows, List.append_assoc]
    · intro r hr hk j hj
      simp only [List.mem_append, List.mem_singleton] at hr
      rcases hr with hr | hr
      · have := hno r hr hk (j + 1) (by simpa using Nat.succ_lt_succ hj)
        intro hcontra
        apply this
        rw [hcontra]
        push_cast
        ring
      · subst hr
        dsimp only
        intro hcontra
        omega

theorem seqRows_key (k : String) :
    ∀ (l : List String) (start : Int) (r : ListRow), r ∈ seqRows k start l → r.key = k := by
  intro l
  induction l with
  | nil => intro start r hr; simp [seqRows] at hr
  | cons v rest ih =>
    intro start r hr
    simp only [seqRows, List.mem_cons] at hr
    rcases hr with hr | hr
    · rw [hr]
    · exact ih (start + 1) r hr

theorem seqRows_filter_self (k : String) :
    ∀ (l : List String) (start : Int),
      (seqRows k start l).filter (fun r => r.key == k) = seqRows k start l := by
  intro l
  induction l with
  | nil => intro start; rfl
  | cons v rest ih => intro start; simp [seqRows, List.filter_cons, ih]

theorem seqRows_length (k : String) :
    ∀ (l : List String) (start : Int), (seqRows k start l).length = l.length := by
  intro l
  induction l with
  | nil => intro start; rfl
  | cons v rest ih => intro start; simp [seqRows, ih]

theorem keyRows_shiftList (st : Store) (k : String) (n : Int) :
    (st.shiftList k n).keyRows k
      = (st.keyRows k).map (fun r => { r with idx := r.idx + n }) := by
  unfold Store.shiftList Store.keyRows
  dsimp only
  induction st.lists with
  | nil => rfl
  | cons r rest ih =>
    by_cases hk : (r.key == k) = true
    · simp only [List.map_cons, List.filter_cons, hk, if_true]
      rw [ih]
    · simp only [List.map_cons, List.filter_cons, hk, if_false, Bool.false_eq_true]
      exact ih

theorem mem_intRange {i : Int} {n : Nat} : i ∈ intRange n ↔ 0 ≤ i ∧ i < n := by
  simp only [intRange, List.mem_map, List.mem_range]
  constructor
  · rintro ⟨a, ha, rfl⟩
    constructor
    · exact Int.ofNat_nonneg a
    · simp only [Int.ofNat_eq_natCast]
      omega
  · rintro ⟨h0, hn⟩
    refine ⟨i.toNat, by omega, ?_⟩
    simp only [Int.ofNat_eq_natCast]
    omega

theorem contig_nonneg {st : Store} {k : String} (h : contigAt st k) :
    ∀ i ∈ st.keyIdxs k, 0 ≤ i := by
  intro i hi
  have := (h.mem_iff).mp hi
  exact (mem_intRange.mp this).1

theorem lpush_reduce (e : Engine) (c : Conn) (now : Nat) (k : String) (vs : List String)
    (hdb : e.db = some c) (hsync : e.inTransaction = c.txnOpen)
    (hstr : c.store.stringLive k now = false)
    (hins : insertSeq (c.store.shiftList k (vs.length : Int)) k 0 vs.reverse
      = ({ c.store.shiftList k (vs.length : Int) with
            lists := (c.store.shiftList k (vs.length : Int)).lists ++ seqRows k 0 vs.reverse },
         none)) :
    (e.lpush now k vs).1
      = .ok ((Store.mk (c.store.shiftList k (vs.length : Int)).strings
          (c.store.shiftList k (vs.length : Int)).hashes
          ((c.store.shiftList k (vs.length : Int)).lists ++ seqRows k 0 vs.reverse)
          (c.store.shiftList k (vs.length : Int)).sets).listCount k) ∧
    (e.lpush now k vs).2.storeOf
      = Store.mk (c.store.shiftList k (vs.length : Int)).strings
          (c.store.shiftList k (vs.length : Int)).hashes
          ((c.store.shiftList k (vs.length : Int)).lists ++ seqRows k 0 vs.reverse)
          (c.store.shiftList k (vs.length : Int)).sets := by
  obtain ⟨db, tx, mode, bufc, ws, exp⟩ := e
  obtain ⟨st0, topen, snap⟩ := c
  dsimp only at hdb hsync hstr hins
  subst hdb; subst hsync
  unfold Engine.lpush
  dsimp only
  simp only [hstr, Bool.false_eq_true, if_false]
  cases tx
  · cases mode
    · simp only [Conn.beginTxn, Bool.not_false, Bool.and_self, if_true, Bool.false_eq_true,
        if_false, Bool.false_or, Bool.not_true, Bool.false_and, Bool.true_and, Bool.and_false]
      rw [hins]
      exact ⟨rfl, rfl⟩
    · simp only [Conn.beginTxn, Bool.not_false, Bool.and_self, if_true, Bool.false_eq_true,
        if_false, Bool.false_or, Bool.not_true, Bool.false_and, Bool.true_and, Bool.and_false]
      rw [hins]
      exact ⟨rfl, rfl⟩
  · simp only [Conn.beginTxn, Bool.not_false, Bool.and_self, if_true, Bool.false_eq_true,
      if_false, Bool.false_or, Bool.not_true, Bool.false_and, Bool.true_and, Bool.and_false,
      Bool.true_or, Bool.or_true, Bool.not_eq_true]
    rw [hins]
    exact ⟨rfl, rfl⟩

/-- C3: `lpush` first shifts every existing row of the key up by `n`, then
inserts the arguments at indices `0 … n-1` in reverse argument order (the last
argument lands at index 0, the head), and replies with the new length; in
particular on an empty key `LPUSH list v1 v2 v3` replies `3` and
`LRANGE list 0 -1` then yields `["v3","v2","v1"]`. -/
theorem C3_lpush_semantics (e : Engine) (c : Conn) (now : Nat) (k : String)
    (vs : List String)
    (hdb : e.db = some c) (hsync : e.inTransaction = c.txnOpen)
    (hstr : c.store.stringLive k now = false) (hcontig : contigAt c.store k) :
    ((e.lpush now k vs).1 = .ok (c.store.listCount k + vs.length) ∧
     (e.lpush now k vs).2.storeOf.keyRows k
       = (c.store.keyRows k).map (fun r => { r with idx := r.idx + (vs.length : Int) })
         ++ seqRows k 0 vs.reverse) ∧
    ((((mkEngine Store.empty).lpush 0 "list" ["v1", "v2", "v3"]).1 = .ok 3) ∧
     ((((mkEngine Store.empty).lpush 0 "list" ["v1", "v2", "v3"]).2.lrange
        "list" 0 (-1)).1 = .ok ["v3", "v2", "v1"])) := by
  refine ⟨?_, rfl, rfl⟩
  have hnoconf : ∀ r ∈ (c.store.shiftList k (vs.length : Int)).lists, r.key = k →
      ∀ j : Nat, j < vs.reverse.length → r.idx ≠ 0 + (j : Int) := by
    intro r hr hk j hj
    simp only [Store.shiftList, List.mem_map] at hr
    obtain ⟨r0, hr0, hfr⟩ := hr
    by_cases hk0 : (r0.key == k) = true
    · rw [if_pos hk0] at hfr
      have hmem : r0.idx ∈ c.store.keyIdxs k := by
        unfold Store.keyIdxs Store.keyRows
        exact List.mem_map_of_mem _ (List.mem_filter.mpr ⟨hr0, hk0⟩)
      have h0 : 0 ≤ r0.idx := contig_nonneg hcontig r0.idx hmem
      have hjn : (j : Int) < vs.length := by
        have := hj
        rw [List.length_reverse] at this
        exact_mod_cast this
      rw [← hfr]
      dsimp only
      omega
    · rw [if_neg hk0] at hfr
      rw [← hfr] at hk
      exact absurd (by simp [hk]) hk0
  have hins := insertSeq_ok k vs.reverse (c.store.shiftList k (vs.length : Int)) 0 hnoconf
  obtain ⟨h1, h2⟩ := lpush_reduce e c now k vs hdb hsync hstr (by
    rw [hins])
  have hkr : (Store.mk (c.store.shiftList k (vs.length : Int)).strings
          (c.store.shiftList k (vs.length : Int)).hashes
          ((c.store.shiftList k (vs.length : Int)).lists ++ seqRows k 0 vs.reverse)
          (c.store.shiftList k (vs.length : Int)).sets).keyRows k
      = (c.store.keyRows k).map (fun r => { r with idx := r.idx + (vs.length : Int) })
        ++ seqRows k 0 vs.reverse := by
    unfold Store.keyRows
    dsimp only
    rw [List.filter_append]
    have hshift := keyRows_shiftList c.store k (vs.length : Int)
    unfold Store.keyRows at hshift
    rw [hshift, seqRows_filter_self]
  constructor
  · rw [h1]
    unfold Store.listCount
    rw [hkr]
    simp [seqRows_length]
  · rw [h2, hkr]

/-- Witness for C3 at a concrete input: a one-element list, pushing two more. -/
theorem C3_lpush_semantics_witness :
    ((⟨[], [], [⟨"q", 0, "a", none⟩], []⟩ : Store).stringLive "q" 0 = false) ∧
    contigAt (⟨[], [], [⟨"q", 0, "a", none⟩], []⟩ : Store) "q" ∧
    ((mkEngine ⟨[], [], [⟨"q", 0, "a", none⟩], []⟩).lpush 0 "q" ["b", "c"]).1 = .ok 3 := by
  refine ⟨by decide, by decide, ?_⟩
  exact (C3_lpush_semantics (mkEngine ⟨[], [], [⟨"q", 0, "a", none⟩], []⟩)
    ⟨⟨[], [], [⟨"q", 0, "a", none⟩], []⟩, false, ⟨[], [], [⟨"q", 0, "a", none⟩], []⟩⟩
    0 "q" ["b", "c"] rfl rfl (by decide) (by decide)).1.1

/-!  Index-list lemmas for the contiguity invariant (claim C4).  -/

theorem intRange_add (m n : Nat) :
    intRange (m + n) = intRange m ++ (List.range n).map (fun j => Int.ofNat m + Int.ofNat j) := by
  unfold intRange
  rw [List.range_add, List.map_append, List.map_map]
  congr 1

theorem seqRows_idxs (k : String) :
    ∀ (l : List String) (start : Int),
      (seqRows k start l).map (fun r => r.idx)
        = (List.range l.length).map (fun j => start + Int.ofNat j) := by
  intro l
  induction l with
  | nil => intro start; rfl
  | cons v rest ih =>
    intro start
    rw [seqRows, List.map_cons, ih]
    simp only [List.length_cons, List.range_succ_eq_map, List.map_cons, List.map_map]
    congr 1
    · simp
    · apply List.map_congr_left
      intro j _
      simp only [Function.comp, Int.ofNat_eq_natCast]
      push_cast
      ring

theorem keyIdxs_shiftList (st : Store) (k : String) (n : Int) :
    (st.shiftList k n).keyIdxs k = (st.keyIdxs k).map (fun i => i + n) := by
  unfold Store.keyIdxs
  rw [keyRows_shiftList, List.map_map, List.map_map]
  rfl

theorem keyRows_shiftList_ne (st : Store) (k q : String) (n : Int) (hne : ¬ q = k) :
    (st.shiftList k n).keyRows q = st.keyRows q := by
  unfold Store.shiftList Store.keyRows
  dsimp only
  induction st.lists with
  | nil => rfl
  | cons r rest ih =>
    by_cases hk : (r.key == k) = true
    · have hq : (r.key == q) = false := by
        rw [beq_iff_eq] at hk
        rw [beq_eq_false_iff_ne, hk]
        exact fun h => hne h.symm
      simp only [List.map_cons, hk, if_true, List.filter_cons, hq, Bool.false_eq_true,
        if_false]
      exact ih
    · simp only [List.map_cons, hk, Bool.false_eq_true, if_false, List.filter_cons]
      rw [ih]

theorem keyRows_decList (st : Store) (k : String) :
    (st.decList k).keyRows k = (st.keyRows k).map (fun r => { r with idx := r.idx - 1 }) := by
  unfold Store.decList Store.keyRows
  dsimp only
  induction st.lists with
  | nil => rfl
  | cons r rest ih =>
    by_cases hk : (r.key == k) = true
    · simp only [List.map_cons, List.filter_cons, hk, if_true]
      rw [ih]
    · simp only [List.map_cons, List.filter_cons, hk, if_false, Bool.false_eq_true]
      exact ih

theorem keyIdxs_decList (st : Store) (k : String) :
    (st.decList k).keyIdxs k = (st.keyIdxs k).map (fun i => i - 1) := by
  unfold Store.keyIdxs
  rw [keyRows_decList, List.map_map, List.map_map]
  rfl

theorem keyRows_decList_ne (st : Store) (k q : String) (hne : ¬ q = k) :
    (st.decList k).keyRows q = st.keyRows q := by
  unfold Store.decList Store.keyRows
  dsimp only
  induction st.lists with
  | nil => rfl
  | cons r rest ih =>
    by_cases hk : (r.key == k) = true
    · have hq : (r.key == q) = false := by
        rw [beq_iff_eq] at hk
        rw [beq_eq_false_iff_ne, hk]
        exact fun h => hne h.symm
      simp only [List.map_cons, hk, if_true, List.filter_cons, hq, Bool.false_eq_true,
        if_false]
      exact ih
    · simp only [List.map_cons, hk, Bool.false_eq_true, if_false, List.filter_cons]
      rw [ih]

theorem keyRows_deleteListIdx (st : Store) (k : String) (i : Int) :
    (st.deleteListIdx k i).keyRows k = (st.keyRows k).filter (fun r => !(r.idx == i)) := by
  unfold Store.deleteListIdx Store.keyRows
  dsimp only
  induction st.lists with
  | nil => rfl
  | cons r rest ih =>
    by_cases hk : (r.key == k) = true <;> by_cases hi : (r.idx == i) = true <;>
      simp only [List.filter_cons, hk, hi, Bool.and_true, Bool.and_false, Bool.true_and,
        Bool.false_and, Bool.not_true, Bool.not_false, Bool.false_eq_true, if_false,
        if_true] <;>
      rw [ih]

theorem keyIdxs_deleteListIdx (st : Store) (k : String) (i : Int) :
    (st.deleteListIdx k i).keyIdxs k = (st.keyIdxs k).filter (fun x => !(x == i)) := by
  unfold Store.keyIdxs
  rw [keyRows_deleteListIdx]
  induction st.keyRows k with
  | nil => rfl
  | cons r rest ih =>
    by_cases hi : (r.idx == i) = true <;>
      simp only [List.filter_cons, List.map_cons, hi, Bool.not_true, Bool.not_false,
        Bool.false_eq_true, if_false, if_true, List.map] <;>
      rw [ih]

theorem keyRows_deleteListIdx_ne (st : Store) (k q : String) (i : Int) (hne : ¬ q = k) :
    (st.deleteListIdx k i).keyRows q = st.keyRows q := by
  unfold Store.deleteListIdx Store.keyRows
  dsimp only
  induction st.lists with
  | nil => rfl
  | cons r rest ih =>
    by_cases hk : (r.key == k) = true
    · have hq : (r.key == q) = false := by
        rw [beq_iff_eq] at hk
        rw [beq_eq_false_iff_ne, hk]
        exact fun h => hne h.symm
      by_cases hi : (r.idx == i) = true <;>
        simp only [List.filter_cons, hk, hi, hq, Bool.and_true, Bool.and_false,
          Bool.not_true, Bool.not_false, Bool.false_eq_true, if_false, if_true] <;>
        rw [ih]
    · have hck : (r.key == k && r.idx == i) = false := by
        rw [Bool.and_eq_false_iff]
        left
        simpa using hk
      simp only [List.filter_cons, hck, Bool.not_false, if_true]
      rw [ih]

theorem seqRows_filter_ne (k q : String) (hne : ¬ q = k) :
    ∀ (l : List String) (start : Int),
      (seqRows k start l).filter (fun r => r.key == q) = [] := by
  intro l
  induction l with
  | nil => intro start; rfl
  | cons v rest ih =>
    intro start
    have hq : ((⟨k, start, v, none⟩ : ListRow).key == q) = false := by
      rw [beq_eq_false_iff_ne]
      exact fun h => hne h.symm
    simp only [seqRows, List.filter_cons, hq, Bool.false_eq_true, if_false]
    exact ih (start + 1)

theorem intRange_filter_zero (n : Nat) :
    (intRange (n + 1)).filter (fun x => !(x == (0 : Int)))
      = (intRange n).map (fun i => i + 1) := by
  unfold intRange
  rw [List.range_succ_eq_map, List.map_cons, List.filter_cons]
  have hhead : (!((Int.ofNat 0) == (0 : Int))) = false := rfl
  rw [hhead]
  simp only [Bool.false_eq_true, if_false, List.map_map]
  rw [List.filter_eq_self.mpr]
  · apply List.map_congr_left
    intro j _
    simp only [Function.comp, Int.ofNat_eq_natCast]
    push_cast
    ring
  · intro a ha
    simp only [List.mem_map] at ha
    obtain ⟨j, _, rfl⟩ := ha
    show (!((Int.ofNat (j + 1)) == (0 : Int))) = true
    simp only [Bool.not_eq_eq_eq_not, Bool.not_true, beq_eq_false_iff_ne, ne_eq,
      Int.ofNat_eq_natCast]
    omega

theorem intRange_filter_top (n : Nat) :
    (intRange (n + 1)).filter (fun x => !(x == (Int.ofNat n))) = intRange n := by
  unfold intRange
  rw [List.range_succ, List.map_append, List.filter_append]
  have htail : (List.filter (fun x => !(x == Int.ofNat n)) (List.map Int.ofNat [n])) = [] := by
    simp [List.filter_cons]
  rw [htail, List.append_nil]
  apply List.filter_eq_self.mpr
  intro a ha
  simp only [List.mem_map, List.mem_range] at ha
  obtain ⟨j, hj, rfl⟩ := ha
  simp only [Bool.not_eq_eq_eq_not, Bool.not_true, beq_eq_false_iff_ne, ne_eq]
  intro hcontra
  have : j = n := by
    have := congrArg Int.toNat hcontra
    simpa using this
  omega

theorem contig_of_perm {l : List Int} {n : Nat} (h : l.Perm (intRange n)) :
    l.Perm (intRange l.length) := by
  have hl : l.length = n := by
    rw [h.length_eq]
    unfold intRange
    rw [List.length_map, List.length_range]
  rw [hl]
  exact h

theorem maxfold_spec :
    ∀ (l : List ListRow) (acc : Option ListRow) (r : ListRow),
      l.foldl (fun acc x =>
        match acc with
        | none => some x
        | some b => if b.idx < x.idx then some x else acc) acc = some r →
      ((∀ x ∈ l, x.idx ≤ r.idx) ∧ (r ∈ l ∨ acc = some r)) ∧
      (∀ b, acc = some b → b.idx ≤ r.idx) := by
  intro l
  induction l with
  | nil =>
    intro acc r h
    simp only [List.foldl_nil] at h
    refine ⟨⟨by simp, Or.inr h⟩, fun b hb => ?_⟩
    rw [hb] at h
    cases h
    exact le_refl _
  | cons x xs ih =>
    intro acc r h
    rw [List.foldl_cons] at h
    obtain ⟨⟨hle, hmem⟩, hacc⟩ := ih _ r h
    cases acc with
    | none =>
      refine ⟨⟨?_, ?_⟩, fun b hb => by cases hb⟩
      · intro y hy
        rcases List.mem_cons.mp hy with hy | hy
        · rw [hy]
          exact hacc x rfl
        · exact hle y hy
      · rcases hmem with hm | hm
        · exact Or.inl (List.mem_cons_of_mem x hm)
        · cases hm
          exact Or.inl (List.mem_cons_self x xs)
    | some b =>
      dsimp only at hacc hmem
      by_cases hbx : b.idx < x.idx
      · rw [if_pos hbx] at hacc hmem
        refine ⟨⟨?_, ?_⟩, fun b2 hb2 => ?_⟩
        · intro y hy
          rcases List.mem_cons.mp hy with hy | hy
          · rw [hy]
            exact hacc x rfl
          · exact hle y hy
        · rcases hmem with hm | hm
          · exact Or.inl (List.mem_cons_of_mem x hm)
          · cases hm
            exact Or.inl (List.mem_cons_self x xs)
        · cases hb2
          exact le_trans (le_of_lt hbx) (hacc x rfl)
      · rw [if_neg hbx] at hacc hmem
        refine ⟨⟨?_, ?_⟩, fun b2 hb2 => ?_⟩
        · intro y hy
          rcases List.mem_cons.mp hy with hy | hy
          · rw [hy]
            exact le_trans (le_of_not_lt hbx) (hacc b rfl)
          · exact hle y hy
        · rcases hmem with hm | hm
          · exact Or.inl (List.mem_cons_of_mem x hm)
          · exact Or.inr hm
        · cases hb2
          exact hacc b rfl

theorem maxListRow_spec (st : Store) (k : String) (r : ListRow)
    (h : st.maxListRow k = some r) :
    (∀ x ∈ st.keyRows k, x.idx ≤ r.idx) ∧ r ∈ st.keyRows k := by
  unfold Store.maxListRow at h
  obtain ⟨⟨hle, hmem⟩, _⟩ := maxfold_spec (st.keyRows k) none r h
  refine ⟨hle, ?_⟩
  rcases hmem with hm | hm
  · exact hm
  · cases hm

theorem minListRow_mem (st : Store) (k : String) (r : ListRow)
    (h : st.minListRow k = some r) : st.keyRows k ≠ [] := by
  intro hnil
  unfold Store.minListRow at h
  rw [hnil] at h
  cases h

theorem keyIdxs_length (st : Store) (k : String) :
    (st.keyIdxs k).length = st.listCount k := by
  unfold Store.keyIdxs Store.listCount
  rw [List.length_map]

theorem keyIdxs_append (st : Store) (L2 : List ListRow) (q : String) :
    (Store.mk st.strings st.hashes (st.lists ++ L2) st.sets).keyIdxs q
      = st.keyIdxs q ++ (L2.filter (fun r => r.key == q)).map (fun r => r.idx) := by
  unfold Store.keyIdxs Store.keyRows
  dsimp only
  rw [List.filter_append, List.map_append]

theorem keyIdxs_mem_of_row (st : Store) (k : String) (r : ListRow)
    (hr : r ∈ st.lists) (hk : (r.key == k) = true) : r.idx ∈ st.keyIdxs k := by
  unfold Store.keyIdxs Store.keyRows
  exact List.mem_map_of_mem _ (List.mem_filter.mpr ⟨hr, hk⟩)

theorem lpush_noconflict (st : Store) (k : String) (vs : List String)
    (hcontig : contigAt st k) :
    ∀ r ∈ (st.shiftList k (vs.length : Int)).lists, r.key = k →
      ∀ j : Nat, j < vs.reverse.length → r.idx ≠ 0 + (j : Int) := by
  intro r hr hk j hj
  simp only [Store.shiftList, List.mem_map] at hr
  obtain ⟨r0, hr0, hfr⟩ := hr
  by_cases hk0 : (r0.key == k) = true
  · rw [if_pos hk0] at hfr
    have h0 : 0 ≤ r0.idx := contig_nonneg hcontig r0.idx (keyIdxs_mem_of_row st k r0 hr0 hk0)
    have hjn : (j : Int) < vs.length := by
      have := hj
      rw [List.length_reverse] at this
      exact_mod_cast this
    rw [← hfr]
    dsimp only
    omega
  · rw [if_neg hk0] at hfr
    rw [← hfr] at hk
    exact absurd (by simp [hk]) hk0

theorem rpush_noconflict (st : Store) (k : String) (vs : List String)
    (hcontig : contigAt st k) :
    ∀ r ∈ st.lists, r.key = k →
      ∀ j : Nat, j < vs.length → r.idx ≠ (st.listCount k : Int) + (j : Int) := by
  intro r hr hk j hj
  have hmem : r.idx ∈ st.keyIdxs k := keyIdxs_mem_of_row st k r hr (by simp [hk])
  have := (hcontig.mem_iff).mp hmem
  have hb := (mem_intRange.mp this).2
  rw [keyIdxs_length] at hb
  omega

theorem contig_stepT_lpush (st : Store) (now : Nat) (k : String) (vs : List String)
    (h : ∀ q, contigAt st q) : ∀ q, contigAt (stepT st now (.lpush k vs)) q := by
  intro q
  unfold stepT
  by_cases hstr : st.stringLive k now = true
  · simpa only [hstr, if_true] using h q
  · simp only [hstr, Bool.false_eq_true, if_false]
    rw [insertSeq_ok k vs.reverse _ 0 (lpush_noconflict st k vs (h k))]
    dsimp only
    by_cases hq : q = k
    · subst hq
      unfold contigAt
      rw [keyIdxs_append, keyIdxs_shiftList, seqRows_filter_self, seqRows_idxs,
        List.length_reverse]
      have hmap0 : (List.range vs.length).map (fun j => (0 : Int) + Int.ofNat j)
          = intRange vs.length := by
        unfold intRange
        apply List.map_congr_left
        intro j _
        rw [zero_add]
      rw [hmap0]
      apply contig_of_perm (n := vs.length + (st.keyIdxs q).length)
      have hA : ((st.keyIdxs q).map (fun i => i + (vs.length : Int))).Perm
          ((intRange (st.keyIdxs q).length).map (fun i => i + (vs.length : Int))) :=
        (h q).map _
      refine ((hA.append (List.Perm.refl _)).trans ?_)
      refine (List.perm_append_comm).trans ?_
      rw [intRange_add vs.length (st.keyIdxs q).length]
      apply List.Perm.append_left
      have hmm : (intRange (st.keyIdxs q).length).map (fun i => i + (vs.length : Int))
          = (List.range (st.keyIdxs q).length).map
              (fun j => Int.ofNat vs.length + Int.ofNat j) := by
        unfold intRange
        rw [List.map_map]
        apply List.map_congr_left
        intro j _
        simp only [Function.comp, Int.ofNat_eq_natCast]
        ring
      rw [hmm]
    · unfold contigAt
      rw [keyIdxs_append, seqRows_filter_ne k q hq]
      simp only [List.map_nil, List.append_nil]
      have hkr : (st.shiftList k (vs.length : Int)).keyIdxs q = st.keyIdxs q := by
        unfold Store.keyIdxs
        rw [keyRows_shiftList_ne st k q _ hq]
      rw [hkr]
      exact h q

theorem contig_stepT_rpush (st : Store) (now : Nat) (k : String) (vs : List String)
    (h : ∀ q, contigAt st q) : ∀ q, contigAt (stepT st now (.rpush k vs)) q := by
  intro q
  unfold stepT
  by_cases hstr : st.stringLive k now = true
  · simpa only [hstr, if_true] using h q
  · simp only [hstr, Bool.false_eq_true, if_false]
    rw [insertSeq_ok k vs st (st.listCount k : Int) ?hno]
    case hno =>
      intro r hr hk j hj
      exact rpush_noconflict st k vs (h k) r hr hk j hj
    dsimp only
    by_cases hq : q = k
    · subst hq
      unfold contigAt
      rw [keyIdxs_append, seqRows_filter_self, seqRows_idxs]
      apply contig_of_perm (n := (st.keyIdxs q).length + vs.length)
      rw [intRange_add (st.keyIdxs q).length vs.length]
      refine List.Perm.append (h q) ?_
      have hmm : (List.range vs.length).map (fun j => ((st.listCount q : Nat) : Int) + Int.ofNat j)
          = (List.range vs.length).map
              (fun j => Int.ofNat (st.keyIdxs q).length + Int.ofNat j) := by
        apply List.map_congr_left
        intro j _
        rw [keyIdxs_length]
        simp [Int.ofNat_eq_natCast]
      rw [hmm]
    · unfold contigAt
      rw [keyIdxs_append, seqRows_filter_ne k q hq]
      simp only [List.map_nil, List.append_nil]
      exact h q

theorem contig_stepT_lpop (st : Store) (now : Nat) (k : String)
    (h : ∀ q, contigAt st q) : ∀ q, contigAt (stepT st now (.lpop k)) q := by
  intro q
  unfold stepT
  dsimp only
  rcases hmin : st.minListRow k with _ | r
  · exact h q
  · dsimp only
    by_cases hq : q = k
    · subst hq
      unfold contigAt
      rw [keyIdxs_decList, keyIdxs_deleteListIdx]
      have hne : st.keyIdxs q ≠ [] := by
        intro hnil
        apply minListRow_mem st q r hmin
        unfold Store.keyIdxs at hnil
        exact List.map_eq_nil.mp hnil
      rcases hm : (st.keyIdxs q).length with _ | m1
      · exact absurd (List.length_eq_zero.mp hm) hne
      · have hperm : (st.keyIdxs q).Perm (intRange (m1 + 1)) := by
          have := h q
          unfold contigAt at this
          rw [hm] at this
          exact this
        have h1 : ((st.keyIdxs q).filter (fun x => !(x == (0 : Int)))).Perm
            ((intRange m1).map (fun i => i + 1)) := by
          refine (hperm.filter _).trans ?_
          rw [intRange_filter_zero]
        have h2 : (((st.keyIdxs q).filter (fun x => !(x == (0 : Int)))).map
            (fun i => i - 1)).Perm (intRange m1) := by
          refine (h1.map _).trans ?_
          rw [List.map_map]
          have hmm : ((fun i => i - 1) ∘ (fun i => i + 1)) = fun (i : Int) => i := by
            funext i
            simp
          rw [hmm]
          simp
        exact contig_of_perm h2
    · unfold contigAt
      have hkr : ((st.deleteListIdx k 0).decList k).keyIdxs q = st.keyIdxs q := by
        unfold Store.keyIdxs
        rw [keyRows_decList_ne _ _ _ hq, keyRows_deleteListIdx_ne _ _ _ _ hq]
      rw [hkr]
      exact h q

theorem contig_rpop_delete (st : Store) (k : String) (r : ListRow)
    (hmax : st.maxListRow k = some r) (h : ∀ q, contigAt st q) :
    ∀ q, contigAt (st.deleteListIdx k r.idx) q := by
  intro q
  by_cases hq : q = k
  · subst hq
    obtain ⟨hle, hmem⟩ := maxListRow_spec st q r hmax
    have hidxmem : r.idx ∈ st.keyIdxs q := by
      unfold Store.keyIdxs
      exact List.mem_map_of_mem _ hmem
    have hne : st.keyIdxs q ≠ [] := fun hnil => by rw [hnil] at hidxmem; cases hidxmem
    rcases hm : (st.keyIdxs q).length with _ | m1
    · exact absurd (List.length_eq_zero.mp hm) hne
    · have hperm : (st.keyIdxs q).Perm (intRange (m1 + 1)) := by
        have := h q
        unfold contigAt at this
        rw [hm] at this
        exact this
      have hub : ∀ i ∈ st.keyIdxs q, i ≤ r.idx := by
        intro i hi
        unfold Store.keyIdxs at hi
        obtain ⟨x, hx, rfl⟩ := List.mem_map.mp hi
        exact hle x hx
      have htopmem : Int.ofNat m1 ∈ st.keyIdxs q := by
        apply hperm.mem_iff.mpr
        exact mem_intRange.mpr ⟨Int.ofNat_nonneg m1, by simp [Int.ofNat_eq_natCast]⟩
      have hrange := mem_intRange.mp (hperm.mem_iff.mp hidxmem)
      have hidx : r.idx = Int.ofNat m1 := by
        have h1 := hub (Int.ofNat m1) htopmem
        have h2 := hrange.2
        simp only [Int.ofNat_eq_natCast] at h1 ⊢
        omega
      unfold contigAt
      rw [keyIdxs_deleteListIdx, hidx]
      refine contig_of_perm (n := m1) ?_
      refine (hperm.filter _).trans ?_
      rw [intRange_filter_top]
  · unfold contigAt
    have hkr : (st.deleteListIdx k r.idx).keyIdxs q = st.keyIdxs q := by
      unfold Store.keyIdxs
      rw [keyRows_deleteListIdx_ne _ _ _ _ hq]
    rw [hkr]
    exact h q

theorem runAll_contig (now : Nat) (ops : List Cmd) :
    ∀ (e : Engine) (c : Conn), e.db = some c → e.inTransaction = c.txnOpen →
      (∀ x ∈ ops, isListOp x = true) → (∀ q, contigAt c.store q) →
      ∀ q, contigAt ((Engine.runAll e now ops).storeOf) q := by
  induction ops with
  | nil =>
    intro e c hdb _ _ hc q
    simp only [Engine.runAll, Engine.storeOf]
    rw [hdb]
    exact hc q
  | cons x xs ih =>
    intro e c hdb hsync hops hc q
    have hx : isListOp x = true := hops x (by simp)
    have hxs : ∀ y ∈ xs, isListOp y = true := fun y hy => hops y (by simp [hy])
    simp only [Engine.runAll]
    cases x with
    | lpush k vs =>
      obtain ⟨c1, he1, hst1, _⟩ := safeDispatch e c now (.lpush k vs) hdb hsync rfl
      rw [he1] at *
      exact ih _ c1 rfl rfl hxs (by rw [hst1]; exact contig_stepT_lpush c.store now k vs hc) q
    | rpush k vs =>
      obtain ⟨c1, he1, hst1, _⟩ := safeDispatch e c now (.rpush k vs) hdb hsync rfl
      rw [he1] at *
      exact ih _ c1 rfl rfl hxs (by rw [hst1]; exact contig_stepT_rpush c.store now k vs hc) q
    | lpop k =>
      obtain ⟨c1, he1, hst1, _⟩ := safeDispatch e c now (.lpop k) hdb hsync rfl
      rw [he1] at *
      exact ih _ c1 rfl rfl hxs (by rw [hst1]; exact contig_stepT_lpop c.store now k hc) q
    | lrange k a b =>
      obtain ⟨c1, he1, hst1, _⟩ := safeDispatch e c now (.lrange k a b) hdb hsync rfl
      rw [he1] at *
      exact ih _ c1 rfl rfl hxs (by rw [hst1]; exact hc) q
    | rpop k =>
      obtain ⟨c1, he1, hst1⟩ := stepOf_rpop e c k hdb hsync
      have hdisp : (e.dispatch now (.rpop k)).2 = (e.rpop k false).2 := rfl
      rw [hdisp, he1]
      refine ih _ c1 rfl rfl hxs ?_ q
      rw [hst1]
      rcases hmax : c.store.maxListRow k with _ | r
      · exact hc
      · by_cases ht : c.txnOpen = true
        · simpa only [ht, if_true] using hc
        · simp only [ht, Bool.false_eq_true, if_false]
          exact contig_rpop_delete c.store k r hmax hc
    | set a b => exact absurd hx Bool.false_ne_true
    | get a => exact absurd hx Bool.false_ne_true
    | rpoplpush a b => exact absurd hx Bool.false_ne_true
    | hset a b v => exact absurd hx Bool.false_ne_true
    | hmset a b => exact absurd hx Bool.false_ne_true
    | hget a b => exact absurd hx Bool.false_ne_true
    | hdel a b => exact absurd hx Bool.false_ne_true
    | hmget a b => exact absurd hx Bool.false_ne_true
    | sadd a b => exact absurd hx Bool.false_ne_true
    | srem a b => exact absurd hx Bool.false_ne_true
    | sismember a b => exact absurd hx Bool.false_ne_true
    | smembers a => exact absurd hx Bool.false_ne_true
    | del a => exact absurd hx Bool.false_ne_true
    | expire a b => exact absurd hx Bool.false_ne_true
    | ttl a => exact absurd hx Bool.false_ne_true
    | flushdb => exact absurd hx Bool.false_ne_true

/-- C4: starting from an empty store, after every operation of an arbitrary
sequence of LPUSH/RPUSH/LPOP/RPOP/LRANGE commands, the stored indices of every
list key are exactly `{0, 1, …, len-1}` — contiguous from 0 with no gaps (an
operation that fails leaves the store unchanged, so the invariant survives it
as well). -/
theorem C4_list_contiguity (now : Nat) (ops : List Cmd)
    (hops : ∀ x ∈ ops, isListOp x = true) :
    ∀ q, contigAt ((Engine.runAll (mkEngine Store.empty) now ops).storeOf) q :=
  runAll_contig now ops (mkEngine Store.empty) ⟨Store.empty, false, Store.empty⟩ rfl rfl hops
    (fun _ => List.Perm.refl [])

/-- Witness for C4 at a concrete operation sequence. -/
theorem C4_list_contiguity_witness :
    (∀ x ∈ [Cmd.lpush "l" ["a", "b", "c"], Cmd.rpush "l" ["d"], Cmd.lpop "l",
        Cmd.rpop "l", Cmd.lrange "l" 0 (-1)], isListOp x = true) ∧
    contigAt ((Engine.runAll (mkEngine Store.empty) 0
      [Cmd.lpush "l" ["a", "b", "c"], Cmd.rpush "l" ["d"], Cmd.lpop "l",
        Cmd.rpop "l", Cmd.lrange "l" 0 (-1)]).storeOf) "l" :=
  ⟨by decide,
   C4_list_contiguity 0
     [Cmd.lpush "l" ["a", "b", "c"], Cmd.rpush "l" ["d"], Cmd.lpop "l",
       Cmd.rpop "l", Cmd.lrange "l" 0 (-1)] (by decide) "l"⟩


end RedisSQLite
